import Mathlib

/-!
# OfflineJudge: the execution core of `src/Run.cpp`

A shallow embedding of the judging core (`RunCode`, `RunTestCase`, `Judge`, `CheckMLE`,
`Encode`, `FindComputerSpeed`, `FixTimeLimit` and the classification / aggregation loop of
`RunSolution`) together with the properties established about it.

Conventions of the embedding.

* `std::string` and the content of a file are lists of characters (`List Char`), one character
  per byte.  A file that cannot be opened reads like an empty file, so a file is represented by
  its content.
* The status codes are the non-negative `int` constants of the source; they are natural numbers
  here, and `|=` is the bitwise or of natural numbers.
* Other `int` values are integers; narrowing to 32 bits is written `toInt32`. The counter
  `correct` counts at most `testCases` test cases, itself an `int`, and is a natural number.
* A finite `double` is the rational number it stands for, and every operation on doubles is the
  exact operation followed by the rounding `fl` (IEEE 754 binary64, round to nearest, ties to
  even).
* The `while (stream >> word)` loops run on a fuel that is fixed by the embedding itself (one
  more than the length of the stream); the theorems show the fuel is never exhausted.
* What the operating system and the clock decide (exit status, elapsed milliseconds, whether
  the polling loop saw the child complete, the values drawn by the random generator) is an
  argument of the function that uses it.
-/

namespace OfflineJudge

/-! ## Constants (`Run.cpp` lines 28-35) -/

def CODE_LENGTH : Nat := 12
def SUCCESS : Nat := 0
def AC : Nat := 1
def WA : Nat := 2
def TIME_OUT : Nat := 4
def RUNTIME_ERROR : Nat := 8
def MEMORY_OUT : Nat := 16

/-! ## Formatted input: `std::istream >> std::string` -/

/-- The `std::isspace` of the classic "C" locale: space, `\t`, `\n`, `\v`, `\f`, `\r`. -/
def isspace (c : Char) : Bool :=
  c == ' ' || c == '\t' || c == '\n' || c == '\x0b' || c == '\x0c' || c == '\r'

/-- The leading-whitespace skip performed by the sentry of `operator>>`. -/
def skipws : List Char → List Char
  | [] => []
  | c :: cs => if isspace c then skipws cs else c :: cs

/-- Characters are extracted up to (not including) the next whitespace character or the end of
the stream; the result is the extracted word and the rest of the stream. -/
def readWord : List Char → List Char × List Char
  | [] => ([], [])
  | c :: cs => if isspace c then ([], c :: cs) else (c :: (readWord cs).1, (readWord cs).2)

/-- One `stream >> word`: `none` when the extraction fails (only whitespace is left), otherwise
the word read and the rest of the stream. -/
def extract (s : List Char) : Option (List Char × List Char) :=
  match skipws s with
  | [] => none
  | c :: cs => some (readWord (c :: cs))

/-! ## `Judge` (lines 174-186) -/

/-- The loop `while (stream >> tp) acc += tp;`. -/
def readAllLoop : Nat → List Char → List Char → List Char
  | 0, _, acc => acc
  | fuel + 1, s, acc =>
    match extract s with
    | none => acc
    | some (tp, rest) => readAllLoop fuel rest (acc ++ tp)

/-- The string accumulated by `while (stream >> tp) acc += tp;` from an empty `acc`. -/
def readAll (s : List Char) : List Char := readAllLoop (s.length + 1) s []

/-- The files of the directory `./TestCase`, by test-case number. -/
structure TestCaseDir where
  /-- The expected output `./TestCase/<n>.out`. -/
  answer : Nat → List Char
  /-- The captured standard output `./TestCase/sol<n>.out`. -/
  solOut : Nat → List Char
  /-- The captured standard error `./TestCase/err<n>.err`. -/
  solErr : Nat → List Char

/-- The comparison made by `Judge` on the contents of the two files. -/
def JudgeContents (userOutput answer : List Char) : Nat :=
  let userAns := readAll userOutput
  let systemAns := readAll answer
  if systemAns = userAns then AC else WA

/-- The function `Judge(testCase)`: the files are only read. -/
def Judge (dir : TestCaseDir) (testCase : Nat) : Nat :=
  JudgeContents (dir.solOut testCase) (dir.answer testCase)

/-! ## `CheckMLE` (lines 341-346) -/

/-- The word `CheckMLE` looks for. -/
def badAlloc : List Char := "std::bad_alloc".toList

/-- The loop `while (fi >> word) if (word == "std::bad_alloc") return true; return false;`. -/
def CheckMLELoop : Nat → List Char → Bool
  | 0, _ => false
  | fuel + 1, s =>
    match extract s with
    | none => false
    | some (word, rest) => if word = badAlloc then true else CheckMLELoop fuel rest

/-- The scan of `CheckMLE` over the content of the error file. -/
def CheckMLEContents (err : List Char) : Bool := CheckMLELoop (err.length + 1) err

/-- The function `CheckMLE(testCase)`. -/
def CheckMLE (dir : TestCaseDir) (testCase : Nat) : Bool :=
  CheckMLEContents (dir.solErr testCase)

/-! ## The classification and aggregation loop of `RunSolution` (lines 445-461) -/

/-- The variables the loop updates: `outputStatus[1..i]` (as far as the loop has come),
`correct`, `allCorrect` and `statusFlag`. -/
structure Aggregate where
  outputStatus : List Nat
  correct : Nat
  allCorrect : Bool
  statusFlag : Nat
deriving DecidableEq, Repr

/-- The two `if` statements at the head of the loop body (lines 450-455): the status left in
`outputStatus[i]`. -/
def classify (dir : TestCaseDir) (i : Nat) (status : Nat) : Nat :=
  let s1 := if status = SUCCESS then Judge dir i else status
  if s1 = RUNTIME_ERROR ∧ CheckMLE dir i = true then MEMORY_OUT else s1

/-- One iteration of the loop body for test case `i` (lines 450-460). -/
def aggregateStep (dir : TestCaseDir) (i : Nat) (status : Nat) (acc : Aggregate) : Aggregate :=
  let s := classify dir i status
  { outputStatus := acc.outputStatus ++ [s]
    correct := acc.correct + (if s = AC then 1 else 0)
    allCorrect := if s ≠ AC then false else acc.allCorrect
    statusFlag := acc.statusFlag ||| s }

/-- The loop `for (i = ...; i <= testCases; ++i)`, from test case `i` on; `raw` holds the
entries `outputStatus[i..testCases]` left by `RunTestCase`. -/
def aggregateFrom (dir : TestCaseDir) : Nat → List Nat → Aggregate → Aggregate
  | _, [], acc => acc
  | i, status :: rest, acc => aggregateFrom dir (i + 1) rest (aggregateStep dir i status acc)

/-- The loop of lines 445-461, started with `correct = 0`, `allCorrect = true`,
`statusFlag = 0` at test case 1; `raw` holds `outputStatus[1..testCases]`. -/
def aggregate (dir : TestCaseDir) (raw : List Nat) : Aggregate :=
  aggregateFrom dir 1 raw { outputStatus := [], correct := 0, allCorrect := true, statusFlag := 0 }

/-! ## `RunCode` and `RunTestCase` (lines 72-172) -/

/-- Narrowing of an integer to the 32-bit `int`. -/
def toInt32 (x : Int) : Int := (x + 2147483648) % 4294967296 - 2147483648

/-- What the supervised child process did: the status `waitpid` stored in `execStatus`, the
milliseconds `t` measured on the steady clock between `start` and `end` (never negative), and
the `ru_maxrss` read by `getrusage`. -/
structure ChildRun where
  execStatus : Int
  elapsed : Nat
  maxrss : Int
deriving DecidableEq, Repr

/-- The values `RunCode` stores in its promises `timeCost`, `memoryCost` and `status`. -/
structure RunCodeResult where
  timeCost : Int
  memoryCost : Int
  status : Nat
deriving DecidableEq, Repr

/-- The function `RunCode` (Linux branch of the memory accounting), lines 104-127: the 64-bit `t`
is narrowed when it is stored in the `std::promise<int>`, and compared with `timeLimit` as it is.
-/
def RunCode (timeLimit : Int) (child : ChildRun) : RunCodeResult :=
  { timeCost := toInt32 child.elapsed
    memoryCost := toInt32 child.maxrss
    status :=
      if child.execStatus ≠ 0 then RUNTIME_ERROR
      else if (child.elapsed : Int) > timeLimit then TIME_OUT
      else SUCCESS }

/-- What `RunTestCase` leaves in `costTime[testCase]`, `costMemory[testCase]` and returns. -/
structure TestCaseRun where
  costTime : Int
  costMemory : Int
  status : Nat
deriving DecidableEq, Repr

/-- The function `RunTestCase`, lines 160-171. `ready` tells whether the polling loop of lines
150-158 saw the future `futTimeCost` ready before it gave up (more than `timeLimit + 100`
milliseconds after the start). -/
def RunTestCase (timeLimit : Int) (child : ChildRun) (ready : Bool) : TestCaseRun :=
  if ready = false then
    { costTime := toInt32 (timeLimit + 50), costMemory := 0, status := TIME_OUT }
  else
    let r := RunCode timeLimit child
    { costTime := r.timeCost, costMemory := r.memoryCost, status := r.status }

/-! ## `Encode` (lines 188-215) -/

/-- The function `std::to_string(int)`. -/
def to_string (a : Int) : List Char := (toString a).toList

/-- The body of the loop of lines 195-200 for the drawn value `a`, on the pair `(sum, ret)`. -/
def encodeStep (st : Int × List Char) (a : Int) : Int × List Char :=
  let sum := st.1 + a
  let ret := if a < 10 then st.2 ++ "0".toList else st.2
  (sum, ret ++ to_string a)

/-- The function `Encode`. The generator of `rng.h` is a parameter: `rng i` is the value
returned by the call `rng(100)` in iteration `i` of the loop. -/
def Encode (rng : Nat → Int) : List Char :=
  let st := (List.range (CODE_LENGTH - 1)).foldl (fun st i => encodeStep st (rng i)) (0, [])
  let sum := Int.tmod st.1 100
  let ret := st.2
  if sum = 20 then ret ++ "00".toList
  else if sum < 20 then
    let a := 20 - sum
    (if a < 10 then ret ++ "0".toList else ret) ++ to_string a
  else
    let a := 120 - sum
    ret ++ to_string a

/-- The two decimal digits of a value from 0 to 99. -/
def twoDigits (a : Int) : List Char :=
  [Char.ofNat (48 + a.toNat / 10), Char.ofNat (48 + a.toNat % 10)]

/-- The value of a decimal digit. -/
def digitValue (c : Char) : Nat := c.toNat - 48

/-- The values of the two-digit groups of a string of decimal digits. -/
def groupValues : List Char → List Nat
  | a :: b :: rest => (10 * digitValue a + digitValue b) :: groupValues rest
  | _ => []

/-! ## Double precision -/

/-- Rounding of a rational to the nearest integer, ties to the even one. -/
def roundNE (x : ℚ) : ℤ :=
  let f := ⌊x⌋
  let r := x - f
  if r < 1 / 2 then f
  else if 1 / 2 < r then f + 1
  else if f % 2 = 0 then f
  else f + 1

/-- The exponent of the unit in the last place of the double nearest to `q`: the significand has
53 bits. -/
def ulpExp (q : ℚ) : ℤ := Int.log 2 |q| - 52

/-- Rounding of a rational to `double`: IEEE 754 binary64, round to nearest, ties to even.
Overflow and underflow are left out; the values of this development are `0` or lie between
`2 ^ (-1022)` and `2 ^ 1024`, where there is none. A finite `double` is the rational it
stands for. -/
def fl (q : ℚ) : ℚ :=
  if q = 0 then 0 else (roundNE (q / (2 : ℚ) ^ ulpExp q) : ℚ) * (2 : ℚ) ^ ulpExp q

/-! ## `FindComputerSpeed` and `FixTimeLimit` (lines 217-262) -/

/-- The constant `TIME` of `FindComputerSpeed`. -/
def TIME : Nat := 100000000

/-- The constant `MOD` of `FindComputerSpeed`. -/
def MOD : Int := 37

/-- The statement `ans = (ans * i) % MOD;` on 32-bit `int`s: the product wraps around and `%`
truncates towards zero. -/
def speedStep (ans i : Int) : Int := Int.tmod (toInt32 (ans * i)) MOD

/-- The same statement on unbounded integers. -/
def speedStepExact (ans i : Int) : Int := Int.tmod (ans * i) MOD

/-- The loop `for (; i <= TIME; ++i) ans = (ans * i) % MOD;` with `n` iterations to go. -/
def speedLoop : Nat → Int → Int → Int
  | 0, _, ans => ans
  | n + 1, i, ans => speedLoop n (i + 1) (speedStep ans i)

/-- The same loop on unbounded integers. -/
def speedLoopExact : Nat → Int → Int → Int
  | 0, _, ans => ans
  | n + 1, i, ans => speedLoopExact n (i + 1) (speedStepExact ans i)

/-- The function `FindComputerSpeed`; `elapsedMs` is the count of milliseconds measured between
`start` and `end`. The `throw` is the error result. -/
def FindComputerSpeed (elapsedMs : Nat) : Except String ℚ :=
  let ans := speedLoop TIME 1 1
  if ans ≠ 0 then Except.error "Didn't fix the time limit"
  else Except.ok (fl (fl elapsedMs / 1000))

/-- The constant `TEST_NUM` of `FixTimeLimit`. -/
def TEST_NUM : Nat := 5

/-- The constant `MY_TIME_COST` of `FixTimeLimit`: the double nearest to `0.3495`. -/
def MY_TIME_COST : ℚ := fl (3495 / 10000)

/-- The loop `for (i = ...; i < TEST_NUM; ++i) average += FindComputerSpeed();` with `n`
iterations to go; `elapsedMs i` is what the clock measures in call `i`. An exception thrown by
`FindComputerSpeed` ends the loop (`Except.bind`). -/
def averageLoop (elapsedMs : Nat → Nat) : Nat → Nat → ℚ → Except String ℚ
  | 0, _, average => Except.ok average
  | n + 1, i, average =>
    (FindComputerSpeed (elapsedMs i)).bind
      (fun x => averageLoop elapsedMs n (i + 1) (fl (average + x)))

/-- The function `FixTimeLimit` (lines 244-261), without the drawing on the screen. -/
def FixTimeLimit (elapsedMs : Nat → Nat) : Except String ℚ :=
  (averageLoop elapsedMs TEST_NUM 0 0).bind (fun sum =>
    let average := fl (sum / TEST_NUM)
    let multiplier := fl (average / MY_TIME_COST)
    Except.ok multiplier)

/-! ## The score of `RunSolution` (line 467) -/

/-- The expression `(double)correct / testCases * 100`. -/
def score (correct testCases : Int) : ℚ := fl (fl (fl correct / fl testCases) * 100)

/-! ## Notions of the specification -/

/-- The bitwise or of a list of statuses. -/
def orAll (statuses : List Nat) : Nat := statuses.foldl (· ||| ·) 0

/-- The value `FindComputerSpeed` returns when the clock measures `elapsedMs` milliseconds:
`double(elapsedMs) / 1000.0`. -/
def measurement (elapsedMs : Nat) : ℚ := fl (fl elapsedMs / 1000)

/-- What `FixTimeLimit` computes from the five values `x0 .. x4` returned by
`FindComputerSpeed`: they are added to `average = 0` one after the other, the sum is divided
by `TEST_NUM` and the result by `MY_TIME_COST`. -/
def multiplierOf (x0 x1 x2 x3 x4 : ℚ) : ℚ :=
  fl (fl (fl (fl (fl (fl (fl (0 + x0) + x1) + x2) + x3) + x4) / 5) / MY_TIME_COST)

/-- The statuses left in `outputStatus[i..]` by the loop body, from the raw ones. -/
def classifyFrom (dir : TestCaseDir) : Nat → List Nat → List Nat
  | _, [] => []
  | i, status :: rest => classify dir i status :: classifyFrom dir (i + 1) rest

/-- The status is one of the five verdict flags. -/
def IsVerdict (s : Nat) : Prop :=
  s = AC ∨ s = WA ∨ s = TIME_OUT ∨ s = RUNTIME_ERROR ∨ s = MEMORY_OUT

instance (s : Nat) : Decidable (IsVerdict s) := by
  unfold IsVerdict
  infer_instance

/-- A run of three test cases: the first is killed by the watchdog, the second aborts on a failed
allocation, the third prints the expected answer. -/
def exampleDir : TestCaseDir :=
  { answer := fun _ => "42\n".toList
    solOut := fun n => if n = 3 then " 42".toList else []
    solErr := fun n =>
      if n = 2 then
        "terminate called after throwing an instance of 'std::bad_alloc'\n  what():  std::bad_alloc\n".toList
      else [] }

/-- A run whose error output names the exception only between quotes. -/
def quotedDir : TestCaseDir :=
  { answer := fun _ => []
    solOut := fun _ => []
    solErr := fun _ => "terminate called after throwing an instance of 'std::bad_alloc'\n".toList }

/-- The whitespace-separated tokens of a text: the text is split at every whitespace character
and the empty pieces are dropped. -/
def wsTokens (s : List Char) : List (List Char) :=
  (s.splitOnP (fun c => isspace c)).filter (fun w => !w.isEmpty)

/-! ## The stream loops, characterised -/

theorem wsTokens_nil : wsTokens [] = [] := by
  simp [wsTokens]

theorem wsTokens_cons_space (c : Char) (cs : List Char) (h : isspace c = true) :
    wsTokens (c :: cs) = wsTokens cs := by
  simp [wsTokens, List.splitOnP_cons, h]

theorem wsTokens_skipws (s : List Char) : wsTokens (skipws s) = wsTokens s := by
  induction s with
  | nil => rfl
  | cons c cs ih =>
    by_cases h : isspace c = true
    · simp [skipws, h, ih, wsTokens_cons_space]
    · simp [skipws, h]

theorem skipws_length_le (s : List Char) : (skipws s).length ≤ s.length := by
  induction s with
  | nil => simp [skipws]
  | cons c cs ih =>
    by_cases h : isspace c = true
    · simp [skipws, h]; omega
    · simp [skipws, h]

theorem readWord_length_le (s : List Char) : (readWord s).2.length ≤ s.length := by
  induction s with
  | nil => simp [readWord]
  | cons c cs ih =>
    by_cases h : isspace c = true
    · simp [readWord, h]
    · simp [readWord, h]; omega

/-- The word read is the first piece of the split and the tokens of the rest are the non-empty
ones among the other pieces. -/
theorem readWord_splitOnP (s : List Char) :
    ∃ t, s.splitOnP (fun c => isspace c) = (readWord s).1 :: t ∧
      wsTokens (readWord s).2 = t.filter (fun w => !w.isEmpty) := by
  induction s with
  | nil => exact ⟨[], by simp [readWord], by simp [readWord, wsTokens]⟩
  | cons c cs ih =>
    obtain ⟨t, ht, hw⟩ := ih
    by_cases h : isspace c = true
    · refine ⟨cs.splitOnP (fun c => isspace c), by simp [readWord, h, List.splitOnP_cons], ?_⟩
      simp [readWord, h, wsTokens_cons_space]
      simp [wsTokens]
    · refine ⟨t, ?_, ?_⟩
      · simp [readWord, h, List.splitOnP_cons, ht]
      · simpa [readWord, h] using hw

theorem wsTokens_cons_nonspace (c : Char) (cs : List Char) (h : isspace c = false) :
    wsTokens (c :: cs) = (readWord (c :: cs)).1 :: wsTokens (readWord (c :: cs)).2 := by
  obtain ⟨t, ht, hw⟩ := readWord_splitOnP (c :: cs)
  rw [hw]
  simp only [wsTokens]
  rw [ht]
  simp [readWord, h]

/-- What one `stream >> word` does, in terms of the tokens of the stream. -/
theorem extract_spec (s : List Char) :
    (extract s = none ∧ wsTokens s = []) ∨
      ∃ w rest, extract s = some (w, rest) ∧ wsTokens s = w :: wsTokens rest ∧
        rest.length < s.length := by
  unfold extract
  have hlen := skipws_length_le s
  have htok := wsTokens_skipws s
  cases hs : skipws s with
  | nil =>
    left
    rw [hs] at htok
    exact ⟨rfl, by rw [← htok, wsTokens_nil]⟩
  | cons c cs =>
    right
    have hc : isspace c = false := by
      clear htok hlen
      induction s with
      | nil => simp [skipws] at hs
      | cons d ds ih =>
        by_cases hd : isspace d = true
        · simp [skipws, hd] at hs; exact ih hs
        · simp [skipws, hd] at hs
          obtain ⟨rfl, -⟩ := hs
          simpa using hd
    refine ⟨(readWord (c :: cs)).1, (readWord (c :: cs)).2, rfl, ?_, ?_⟩
    · rw [← htok, hs, wsTokens_cons_nonspace c cs hc]
    · rw [hs] at hlen
      have h1 : (readWord (c :: cs)).2.length ≤ cs.length := by
        simp only [readWord, hc, Bool.false_eq_true, if_false]
        exact readWord_length_le cs
      simp only [List.length_cons] at hlen
      omega

theorem readAllLoop_eq (fuel : Nat) (s acc : List Char) (h : s.length < fuel) :
    readAllLoop fuel s acc = acc ++ (wsTokens s).flatten := by
  induction fuel generalizing s acc with
  | zero => omega
  | succ n ih =>
    rcases extract_spec s with ⟨he, ht⟩ | ⟨w, rest, he, ht, hl⟩
    · simp [readAllLoop, he, ht]
    · simp only [readAllLoop, he]
      rw [ih rest (acc ++ w) (by omega), ht]
      simp

theorem readAll_eq (s : List Char) : readAll s = (wsTokens s).flatten := by
  simp [readAll, readAllLoop_eq]

theorem CheckMLELoop_eq (fuel : Nat) (s : List Char) (h : s.length < fuel) :
    CheckMLELoop fuel s = true ↔ badAlloc ∈ wsTokens s := by
  induction fuel generalizing s with
  | zero => omega
  | succ n ih =>
    rcases extract_spec s with ⟨he, ht⟩ | ⟨w, rest, he, ht, hl⟩
    · simp [CheckMLELoop, he, ht]
    · simp only [CheckMLELoop, he, ht, List.mem_cons]
      by_cases hw : w = badAlloc
      · simp [hw]
      · rw [if_neg hw, ih rest (by omega)]
        constructor
        · exact fun h => Or.inr h
        · rintro (h | h)
          · exact absurd h.symm hw
          · exact h

theorem CheckMLEContents_iff (err : List Char) :
    CheckMLEContents err = true ↔ badAlloc ∈ wsTokens err := by
  simp [CheckMLEContents, CheckMLELoop_eq]

theorem filter_skipws (s : List Char) :
    (skipws s).filter (fun c => !isspace c) = s.filter (fun c => !isspace c) := by
  induction s with
  | nil => rfl
  | cons c cs ih =>
    by_cases h : isspace c = true
    · simp [skipws, h, ih]
    · simp [skipws, h]

theorem filter_readWord (s : List Char) :
    (readWord s).1 ++ (readWord s).2.filter (fun c => !isspace c) =
      s.filter (fun c => !isspace c) := by
  induction s with
  | nil => simp [readWord]
  | cons c cs ih =>
    by_cases h : isspace c = true
    · simp [readWord, h]
    · simp [readWord, h, ih]

theorem extract_filter (s w rest : List Char) (h : extract s = some (w, rest)) :
    s.filter (fun c => !isspace c) = w ++ rest.filter (fun c => !isspace c) := by
  unfold extract at h
  cases hs : skipws s with
  | nil => simp [hs] at h
  | cons c cs =>
    simp only [hs, Option.some.injEq] at h
    rw [← filter_skipws, hs, ← filter_readWord (c :: cs), h]

/-- The concatenation of the tokens of a text is the text without its whitespace. -/
theorem wsTokens_flatten (s : List Char) :
    (wsTokens s).flatten = s.filter (fun c => !isspace c) := by
  suffices H : ∀ n (s : List Char), s.length < n →
      (wsTokens s).flatten = s.filter (fun c => !isspace c) from H _ s (Nat.lt_succ_self _)
  intro n
  induction n with
  | zero => intro s h; omega
  | succ n ih =>
    intro s h
    rcases extract_spec s with ⟨he, ht⟩ | ⟨w, rest, he, ht, hl⟩
    · rw [ht]
      unfold extract at he
      cases hs : skipws s with
      | nil => rw [← filter_skipws, hs]; rfl
      | cons c cs => simp [hs] at he
    · rw [ht, extract_filter s w rest he, List.flatten_cons, ih rest (by omega)]

/-! ## The classification and aggregation loop, characterised -/

theorem aggregateFrom_eq (dir : TestCaseDir) (i : Nat) (raw : List Nat) (acc : Aggregate) :
    aggregateFrom dir i raw acc =
      { outputStatus := acc.outputStatus ++ classifyFrom dir i raw
        correct := acc.correct + (classifyFrom dir i raw).count AC
        allCorrect := acc.allCorrect && (classifyFrom dir i raw).all (fun s => decide (s = AC))
        statusFlag := (classifyFrom dir i raw).foldl (· ||| ·) acc.statusFlag } := by
  induction raw generalizing i acc with
  | nil => simp [aggregateFrom, classifyFrom]
  | cons st rest ih =>
    rw [aggregateFrom, ih]
    by_cases h : classify dir i st = AC
    · simp [aggregateStep, classifyFrom, h, Nat.add_assoc, Nat.add_comm]
    · simp [aggregateStep, classifyFrom, h, List.count_cons]

theorem aggregate_eq (dir : TestCaseDir) (raw : List Nat) :
    aggregate dir raw =
      { outputStatus := classifyFrom dir 1 raw
        correct := (classifyFrom dir 1 raw).count AC
        allCorrect := (classifyFrom dir 1 raw).all (fun s => decide (s = AC))
        statusFlag := orAll (classifyFrom dir 1 raw) } := by
  simp [aggregate, aggregateFrom_eq, orAll]

theorem classifyFrom_length (dir : TestCaseDir) (i : Nat) (raw : List Nat) :
    (classifyFrom dir i raw).length = raw.length := by
  induction raw generalizing i with
  | nil => rfl
  | cons st rest ih => simp [classifyFrom, ih]

theorem classifyFrom_getElem? (dir : TestCaseDir) (i : Nat) (raw : List Nat) (k : Nat) :
    (classifyFrom dir i raw)[k]? = (raw[k]?).map (classify dir (i + k)) := by
  induction raw generalizing i k with
  | nil => simp [classifyFrom]
  | cons st rest ih =>
    cases k with
    | zero => simp [classifyFrom]
    | succ k => simp [classifyFrom, ih, Nat.add_assoc, Nat.add_comm 1 k]

theorem JudgeContents_verdict (u a : List Char) :
    JudgeContents u a = AC ∨ JudgeContents u a = WA := by
  unfold JudgeContents
  by_cases h : readAll a = readAll u <;> simp [h]

theorem classify_success (dir : TestCaseDir) (i : Nat) : classify dir i SUCCESS = Judge dir i := by
  unfold classify
  rcases JudgeContents_verdict (dir.solOut i) (dir.answer i) with h | h <;>
    simp [Judge, h, AC, WA, RUNTIME_ERROR]

theorem classify_timeout (dir : TestCaseDir) (i : Nat) : classify dir i TIME_OUT = TIME_OUT := by
  simp [classify, TIME_OUT, SUCCESS, RUNTIME_ERROR]

theorem classify_runtime_error (dir : TestCaseDir) (i : Nat) :
    classify dir i RUNTIME_ERROR =
      if badAlloc ∈ wsTokens (dir.solErr i) then MEMORY_OUT else RUNTIME_ERROR := by
  have h := CheckMLEContents_iff (dir.solErr i)
  by_cases hm : badAlloc ∈ wsTokens (dir.solErr i)
  · simp [classify, CheckMLE, h.mpr hm, hm, RUNTIME_ERROR, SUCCESS]
  · have : CheckMLEContents (dir.solErr i) = false := by
      cases hc : CheckMLEContents (dir.solErr i) with
      | false => rfl
      | true => exact absurd (h.mp hc) hm
    simp [classify, CheckMLE, this, hm, RUNTIME_ERROR, SUCCESS]

theorem or_eq_zero_iff (x y : Nat) : x ||| y = 0 ↔ x = 0 ∧ y = 0 := by
  constructor
  · intro h
    have hb : ∀ i, (x.testBit i || y.testBit i) = false := fun i => by
      rw [← Nat.testBit_or, h, Nat.zero_testBit]
    constructor <;> apply Nat.eq_of_testBit_eq <;> intro i <;> have := hb i <;>
      simp_all [Nat.zero_testBit]
  · rintro ⟨rfl, rfl⟩
    rfl

theorem flag_and_flag (s b : Nat) (hs : IsVerdict s) (hb : IsVerdict b) :
    s &&& b ≠ 0 ↔ s = b := by
  rcases hs with rfl | rfl | rfl | rfl | rfl <;> rcases hb with rfl | rfl | rfl | rfl | rfl <;>
    decide

theorem foldl_or_and_flag (l : List Nat) (acc b : Nat) (hl : ∀ s ∈ l, IsVerdict s)
    (hb : IsVerdict b) :
    l.foldl (· ||| ·) acc &&& b ≠ 0 ↔ (acc &&& b ≠ 0 ∨ b ∈ l) := by
  induction l generalizing acc with
  | nil => simp
  | cons s rest ih =>
    have hs : IsVerdict s := hl s (List.mem_cons_self _ _)
    rw [List.foldl_cons, ih _ (fun x hx => hl x (List.mem_cons_of_mem _ hx)),
      Nat.and_comm (acc ||| s) b, Nat.and_or_distrib_left, Nat.and_comm b acc, Nat.and_comm b s]
    have h1 := flag_and_flag s b hs hb
    have h2 : (acc &&& b ||| s &&& b) ≠ 0 ↔ (acc &&& b ≠ 0 ∨ s &&& b ≠ 0) := by
      rw [Ne, or_eq_zero_iff]
      tauto
    rw [h2, h1, List.mem_cons]
    constructor
    · rintro ((h | h) | h)
      · exact Or.inl h
      · exact Or.inr (Or.inl h.symm)
      · exact Or.inr (Or.inr h)
    · rintro (h | h | h)
      · exact Or.inl (Or.inl h)
      · exact Or.inl (Or.inr h.symm)
      · exact Or.inr h

/-! ## C1 -/

/-- C1. When every status left in `outputStatus` by the loop of lines 449-461 is one of AC=1,
WA=2, TLE=4, RE=8, MLE=16, the `statusFlag` the loop computes is the bitwise or of these
statuses, so the bit of a status is set in `statusFlag` exactly when some test case ended with
that status, and `correct` is the number of AC statuses; for the statuses TLE, MLE, AC the
flag is 21 and `correct` is 1. -/
theorem statusFlag_eq_or_of_statuses (dir : TestCaseDir) (raw : List Nat)
    (hfinal : ∀ s ∈ (aggregate dir raw).outputStatus, IsVerdict s) :
    (aggregate dir raw).outputStatus.length = raw.length ∧
    (aggregate dir raw).statusFlag = orAll (aggregate dir raw).outputStatus ∧
    (∀ b, IsVerdict b →
      ((aggregate dir raw).statusFlag &&& b ≠ 0 ↔ b ∈ (aggregate dir raw).outputStatus)) ∧
    (aggregate dir raw).correct = (aggregate dir raw).outputStatus.count AC ∧
    ((aggregate dir raw).outputStatus = [TIME_OUT, MEMORY_OUT, AC] →
      (aggregate dir raw).statusFlag = 21 ∧ (aggregate dir raw).correct = 1) := by
  have h1 : (aggregate dir raw).outputStatus = classifyFrom dir 1 raw := by rw [aggregate_eq]
  have h2 : (aggregate dir raw).statusFlag = orAll (classifyFrom dir 1 raw) := by
    rw [aggregate_eq]
  have h3 : (aggregate dir raw).correct = (classifyFrom dir 1 raw).count AC := by
    rw [aggregate_eq]
  rw [h1] at hfinal
  rw [h1, h2, h3]
  refine ⟨classifyFrom_length dir 1 raw, rfl, ?_, rfl, ?_⟩
  · intro b hb
    have h := foldl_or_and_flag (classifyFrom dir 1 raw) 0 b hfinal hb
    simpa [orAll] using h
  · intro h
    rw [h]
    decide

/-- The hypothesis of C1 holds for the run `exampleDir`, whose raw statuses are TimedOut,
RuntimeError and Success, and its conclusion gives the flag 21 and one correct test case. -/
theorem statusFlag_eq_or_of_statuses_witness :
    (aggregate exampleDir [TIME_OUT, RUNTIME_ERROR, SUCCESS]).outputStatus =
        [TIME_OUT, MEMORY_OUT, AC] ∧
      (aggregate exampleDir [TIME_OUT, RUNTIME_ERROR, SUCCESS]).statusFlag = 21 ∧
      (aggregate exampleDir [TIME_OUT, RUNTIME_ERROR, SUCCESS]).correct = 1 :=
  have h : (aggregate exampleDir [TIME_OUT, RUNTIME_ERROR, SUCCESS]).outputStatus =
      [TIME_OUT, MEMORY_OUT, AC] := by decide
  ⟨h, (statusFlag_eq_or_of_statuses exampleDir [TIME_OUT, RUNTIME_ERROR, SUCCESS]
    (by rw [h]; decide)).2.2.2.2 h⟩

theorem aggregate_outputStatus_getElem? (dir : TestCaseDir) (raw : List Nat) (k : Nat) :
    (aggregate dir raw).outputStatus[k]? = (raw[k]?).map (classify dir (k + 1)) := by
  rw [aggregate_eq]
  simp only
  rw [classifyFrom_getElem?, Nat.add_comm]

/-! ## C2 -/

/-- C2, as stated, fails: the error output of `quotedDir` contains `std::bad_alloc` (between
quotes) and the run returned RuntimeError, yet the final status is RE, not MLE. -/
theorem bad_alloc_substring_stays_RE :
    badAlloc <:+: quotedDir.solErr 1 ∧
      (aggregate quotedDir [RUNTIME_ERROR]).outputStatus = [RUNTIME_ERROR] := by
  decide

/-- C2, amended. For a test case whose run returned RuntimeError, when `std::bad_alloc` is one
of the whitespace-separated words of the captured error text, the final status is MLE (and
not RE); when it is not one of the words, the final status is RE. The scan of `CheckMLE` ends
by itself: more fuel than the length of the text never changes its answer. -/
theorem bad_alloc_word_gives_MLE (dir : TestCaseDir) (raw : List Nat) (k : Nat)
    (hraw : raw[k]? = some RUNTIME_ERROR) :
    (badAlloc ∈ wsTokens (dir.solErr (k + 1)) →
      (aggregate dir raw).outputStatus[k]? = some MEMORY_OUT) ∧
    (badAlloc ∉ wsTokens (dir.solErr (k + 1)) →
      (aggregate dir raw).outputStatus[k]? = some RUNTIME_ERROR) ∧
    (∀ fuel, (dir.solErr (k + 1)).length < fuel →
      CheckMLELoop fuel (dir.solErr (k + 1)) = CheckMLE dir (k + 1)) := by
  rw [aggregate_outputStatus_getElem?, hraw, Option.map_some', classify_runtime_error]
  refine ⟨?_, ?_, ?_⟩
  · intro h
    rw [if_pos h]
  · intro h
    rw [if_neg h]
  · intro fuel h
    rw [Bool.eq_iff_iff, CheckMLELoop_eq fuel _ h, CheckMLE, CheckMLEContents_iff]

/-- The second test case of `exampleDir` returned RuntimeError and `std::bad_alloc` is a word of
its error text: its final status is MLE. -/
theorem bad_alloc_word_gives_MLE_witness :
    [TIME_OUT, RUNTIME_ERROR, SUCCESS][1]? = some RUNTIME_ERROR ∧
      badAlloc ∈ wsTokens (exampleDir.solErr 2) ∧
      (aggregate exampleDir [TIME_OUT, RUNTIME_ERROR, SUCCESS]).outputStatus[1]? =
        some MEMORY_OUT :=
  have h : badAlloc ∈ wsTokens (exampleDir.solErr 2) := by decide
  ⟨rfl, h, (bad_alloc_word_gives_MLE exampleDir [TIME_OUT, RUNTIME_ERROR, SUCCESS] 1 rfl).1 h⟩

/-! ## C3 -/

/-- C3. For a raw status that `RunTestCase` can return (Success=0, TimedOut=4, RuntimeError=8)
and whatever the output, expected-output and error files contain, the status the loop of
lines 449-461 leaves in `outputStatus` for that test case is exactly one of AC, WA, TLE, RE,
MLE: Success yields AC or WA, TimedOut yields TLE, RuntimeError yields RE or MLE. -/
theorem final_status_is_single_verdict (dir : TestCaseDir) (raw : List Nat) (k : Nat) (st : Nat)
    (hk : raw[k]? = some st)
    (hst : st = SUCCESS ∨ st = TIME_OUT ∨ st = RUNTIME_ERROR) :
    ∃ s, (aggregate dir raw).outputStatus[k]? = some s ∧ s = classify dir (k + 1) st ∧
      IsVerdict s ∧
      (st = SUCCESS → s = AC ∨ s = WA) ∧
      (st = TIME_OUT → s = TIME_OUT) ∧
      (st = RUNTIME_ERROR → s = RUNTIME_ERROR ∨ s = MEMORY_OUT) := by
  refine ⟨classify dir (k + 1) st, ?_, rfl, ?_⟩
  · rw [aggregate_outputStatus_getElem?, hk, Option.map_some']
  · rcases hst with rfl | rfl | rfl
    · rw [classify_success]
      rcases JudgeContents_verdict (dir.solOut (k + 1)) (dir.answer (k + 1)) with h | h
      · have hj : Judge dir (k + 1) = AC := h
        rw [hj]
        exact ⟨Or.inl rfl, fun _ => Or.inl rfl, by decide, by decide⟩
      · have hj : Judge dir (k + 1) = WA := h
        rw [hj]
        exact ⟨Or.inr (Or.inl rfl), fun _ => Or.inr rfl, by decide, by decide⟩
    · rw [classify_timeout]
      exact ⟨Or.inr (Or.inr (Or.inl rfl)), by decide, fun _ => rfl, by decide⟩
    · rw [classify_runtime_error]
      by_cases hm : badAlloc ∈ wsTokens (dir.solErr (k + 1))
      · rw [if_pos hm]
        exact ⟨Or.inr (Or.inr (Or.inr (Or.inr rfl))), by decide, by decide, fun _ => Or.inr rfl⟩
      · rw [if_neg hm]
        exact ⟨Or.inr (Or.inr (Or.inr (Or.inl rfl))), by decide, by decide, fun _ => Or.inl rfl⟩

/-- The three raw statuses at work in the run `exampleDir`: the third test case returned
Success and ends as AC. -/
theorem final_status_is_single_verdict_witness :
    ∃ s, (aggregate exampleDir [TIME_OUT, RUNTIME_ERROR, SUCCESS]).outputStatus[2]? = some s ∧
      s = classify exampleDir 3 SUCCESS ∧ IsVerdict s ∧
      (SUCCESS = SUCCESS → s = AC ∨ s = WA) ∧
      (SUCCESS = TIME_OUT → s = TIME_OUT) ∧
      (SUCCESS = RUNTIME_ERROR → s = RUNTIME_ERROR ∨ s = MEMORY_OUT) :=
  final_status_is_single_verdict exampleDir [TIME_OUT, RUNTIME_ERROR, SUCCESS] 2 SUCCESS rfl
    (Or.inl rfl)

/-! ## C7 -/

/-- C7. `Judge` returns AC exactly when the concatenation of the whitespace-separated tokens of
the captured output equals that of the expected output, and WA otherwise; these
concatenations are the two texts without their whitespace, so the verdict is the same for any
other pair of files with the same tokens, however the whitespace between, before or after
them differs; in particular judging the same two contents again gives the same verdict. The
two reading loops end by themselves: more fuel than the length of the file never changes what
they accumulate. -/
theorem Judge_iff_tokens_concat_eq (dir : TestCaseDir) (n : Nat) :
    (Judge dir n = AC ↔
      (wsTokens (dir.solOut n)).flatten = (wsTokens (dir.answer n)).flatten) ∧
    (Judge dir n ≠ AC → Judge dir n = WA) ∧
    (Judge dir n = AC ↔
      (dir.solOut n).filter (fun c => !isspace c) = (dir.answer n).filter (fun c => !isspace c)) ∧
    (∀ dir2 : TestCaseDir, wsTokens (dir2.solOut n) = wsTokens (dir.solOut n) →
      wsTokens (dir2.answer n) = wsTokens (dir.answer n) → Judge dir2 n = Judge dir n) ∧
    (∀ dir2 : TestCaseDir, dir2.solOut n = dir.solOut n → dir2.answer n = dir.answer n →
      Judge dir2 n = Judge dir n) ∧
    (∀ fuel, (dir.solOut n).length < fuel →
      readAllLoop fuel (dir.solOut n) [] = readAll (dir.solOut n)) ∧
    (∀ fuel, (dir.answer n).length < fuel →
      readAllLoop fuel (dir.answer n) [] = readAll (dir.answer n)) := by
  have key : ∀ d : TestCaseDir, Judge d n =
      if (wsTokens (d.answer n)).flatten = (wsTokens (d.solOut n)).flatten then AC else WA := by
    intro d
    simp only [Judge, JudgeContents, readAll_eq]
  refine ⟨?_, ?_, ?_, ?_, fun dir2 h1 h2 => by rw [key, key, h1, h2],
    fun fuel h => by rw [readAllLoop_eq fuel _ _ h, readAll_eq, List.nil_append],
    fun fuel h => by rw [readAllLoop_eq fuel _ _ h, readAll_eq, List.nil_append]⟩
  · rw [key]
    by_cases h : (wsTokens (dir.answer n)).flatten = (wsTokens (dir.solOut n)).flatten
    · simp [h]
    · simp only [if_neg h]
      constructor
      · intro h'
        exact absurd h' (by decide)
      · intro h'
        exact absurd h'.symm h
  · rw [key]
    by_cases h : (wsTokens (dir.answer n)).flatten = (wsTokens (dir.solOut n)).flatten
    · simp [h]
    · simp [h]
  · rw [key, ← wsTokens_flatten, ← wsTokens_flatten]
    by_cases h : (wsTokens (dir.answer n)).flatten = (wsTokens (dir.solOut n)).flatten
    · simp [h]
    · simp only [if_neg h]
      constructor
      · intro h'
        exact absurd h' (by decide)
      · intro h'
        exact absurd h'.symm h
  · intro dir2 h1 h2
    rw [key, key, h1, h2]

/-! ## `RunTestCase`, characterised -/

theorem toInt32_of_range (x : Int) (h1 : -2147483648 ≤ x) (h2 : x < 2147483648) :
    toInt32 x = x := by
  unfold toInt32
  omega

theorem RunTestCase_status (timeLimit : Int) (child : ChildRun) (ready : Bool) :
    (RunTestCase timeLimit child ready).status = SUCCESS ∨
      (RunTestCase timeLimit child ready).status = TIME_OUT ∨
      (RunTestCase timeLimit child ready).status = RUNTIME_ERROR := by
  unfold RunTestCase RunCode
  cases ready
  · simp
  · by_cases h1 : child.execStatus = 0
    · by_cases h2 : (child.elapsed : Int) > timeLimit <;> simp [h1, h2]
    · simp [h1]

/-- A final status AC or WA comes from the raw status Success only. -/
theorem classify_AC_WA (dir : TestCaseDir) (i : Nat) (st : Nat)
    (hst : st = SUCCESS ∨ st = TIME_OUT ∨ st = RUNTIME_ERROR)
    (h : classify dir i st = AC ∨ classify dir i st = WA) : st = SUCCESS := by
  rcases hst with rfl | rfl | rfl
  · rfl
  · rw [classify_timeout] at h
    revert h
    decide
  · rw [classify_runtime_error] at h
    by_cases hm : badAlloc ∈ wsTokens (dir.solErr i)
    · rw [if_pos hm] at h
      revert h
      decide
    · rw [if_neg hm] at h
      revert h
      decide

/-- A final status TLE comes from the raw status TimedOut only. -/
theorem classify_TLE (dir : TestCaseDir) (i : Nat) (st : Nat)
    (hst : st = SUCCESS ∨ st = TIME_OUT ∨ st = RUNTIME_ERROR)
    (h : classify dir i st = TIME_OUT) : st = TIME_OUT := by
  rcases hst with rfl | rfl | rfl
  · rw [classify_success] at h
    rcases JudgeContents_verdict (dir.solOut i) (dir.answer i) with h' | h'
    · have hj : Judge dir i = AC := h'
      rw [hj] at h
      revert h
      decide
    · have hj : Judge dir i = WA := h'
      rw [hj] at h
      revert h
      decide
  · rfl
  · rw [classify_runtime_error] at h
    by_cases hm : badAlloc ∈ wsTokens (dir.solErr i)
    · rw [if_pos hm] at h
      revert h
      decide
    · rw [if_neg hm] at h
      revert h
      decide

/-! ## C4 -/

/-- C4, as stated, fails: with the time limit 1000, a child that exits with status 0 after 1020
milliseconds and is seen complete by the polling loop gets the final status TLE, and the
time recorded in `costTime` is 1020, not 1000 + 50. -/
theorem TLE_costTime_not_always_limit_plus_50 :
    ¬ ∀ (dir : TestCaseDir) (i : Nat) (timeLimit : Int) (child : ChildRun) (ready : Bool),
      classify dir i (RunTestCase timeLimit child ready).status = TIME_OUT →
        (RunTestCase timeLimit child ready).costTime = timeLimit + 50 := by
  intro h
  have h1 := h exampleDir 1 1000 { execStatus := 0, elapsed := 1020, maxrss := 0 } true
    (by decide)
  revert h1
  decide

/-- C4, amended. If the final status of a test case is TLE, then either the polling loop gave
up and the time recorded in `costTime` is the time limit plus 50 (for a time limit such that
this sum is an `int`), or the child was seen complete with exit status 0 after more
milliseconds than the time limit, and `costTime` holds that measured count (as an `int`). -/
theorem TLE_costTime (dir : TestCaseDir) (i : Nat) (timeLimit : Int) (child : ChildRun)
    (ready : Bool)
    (hlo : -2147483648 ≤ timeLimit + 50) (hhi : timeLimit + 50 < 2147483648)
    (h : classify dir i (RunTestCase timeLimit child ready).status = TIME_OUT) :
    (ready = false ∧ (RunTestCase timeLimit child ready).costTime = timeLimit + 50) ∨
      (ready = true ∧ child.execStatus = 0 ∧ timeLimit < child.elapsed ∧
        (RunTestCase timeLimit child ready).costTime = toInt32 child.elapsed) := by
  have hs := classify_TLE dir i _ (RunTestCase_status timeLimit child ready) h
  cases ready
  · left
    exact ⟨rfl, by simp [RunTestCase, toInt32_of_range _ hlo hhi]⟩
  · right
    unfold RunTestCase RunCode at hs ⊢
    by_cases h1 : child.execStatus = 0
    · by_cases h2 : (child.elapsed : Int) > timeLimit
      · exact ⟨rfl, h1, h2, by simp⟩
      · simp [h1, h2, SUCCESS, TIME_OUT] at hs
    · simp [h1, RUNTIME_ERROR, TIME_OUT] at hs

/-- The first test case of `exampleDir`, with the time limit 1000: the polling loop gives up,
the final status is TLE and `costTime` is 1050. -/
theorem TLE_costTime_witness :
    classify exampleDir 1
        (RunTestCase 1000 { execStatus := 0, elapsed := 1500, maxrss := 0 } false).status =
        TIME_OUT ∧
      (RunTestCase 1000 { execStatus := 0, elapsed := 1500, maxrss := 0 } false).costTime =
        1050 :=
  have h : classify exampleDir 1
      (RunTestCase 1000 { execStatus := 0, elapsed := 1500, maxrss := 0 } false).status =
      TIME_OUT := by decide
  ⟨h, ((TLE_costTime exampleDir 1 1000 { execStatus := 0, elapsed := 1500, maxrss := 0 } false
    (by decide) (by decide) h).resolve_right (by decide)).2⟩

/-! ## C5 -/

/-- C5. If the final status of a test case is AC or WA, the time recorded in `costTime` by
`RunTestCase` is at most the time limit passed to `RunTestCase` (an `int`). -/
theorem AC_WA_costTime_le_limit (dir : TestCaseDir) (i : Nat) (timeLimit : Int)
    (child : ChildRun) (ready : Bool) (hint : timeLimit < 2147483648)
    (h : classify dir i (RunTestCase timeLimit child ready).status = AC ∨
      classify dir i (RunTestCase timeLimit child ready).status = WA) :
    (RunTestCase timeLimit child ready).costTime ≤ timeLimit := by
  have hs := classify_AC_WA dir i _ (RunTestCase_status timeLimit child ready) h
  unfold RunTestCase RunCode at hs ⊢
  cases ready
  · simp [TIME_OUT, SUCCESS] at hs
  · by_cases h1 : child.execStatus = 0
    · by_cases h2 : (child.elapsed : Int) > timeLimit
      · simp [h1, h2, SUCCESS, TIME_OUT] at hs
      · have h3 : toInt32 child.elapsed = child.elapsed :=
          toInt32_of_range _ (by omega) (by omega)
        simp only [Bool.true_eq_false, if_false, h3]
        omega
    · simp [h1, RUNTIME_ERROR, SUCCESS] at hs

/-- The third test case of `exampleDir`, with the time limit 1000 and a child that exits with
status 0 after 700 milliseconds: the final status is AC and `costTime` is 700. -/
theorem AC_WA_costTime_le_limit_witness :
    classify exampleDir 3
        (RunTestCase 1000 { execStatus := 0, elapsed := 700, maxrss := 0 } true).status = AC ∧
      (RunTestCase 1000 { execStatus := 0, elapsed := 700, maxrss := 0 } true).costTime ≤ 1000 :=
  have h : classify exampleDir 3
      (RunTestCase 1000 { execStatus := 0, elapsed := 700, maxrss := 0 } true).status = AC := by
    decide
  ⟨h, AC_WA_costTime_le_limit exampleDir 3 1000 { execStatus := 0, elapsed := 700, maxrss := 0 }
    true (by decide) (Or.inl h)⟩

/-! ## The calibration workload, characterised -/

theorem speedLoop_add (a b : Nat) (i ans : Int) :
    speedLoop (a + b) i ans = speedLoop b (i + a) (speedLoop a i ans) := by
  induction a generalizing i ans with
  | zero => simp [speedLoop]
  | succ a ih =>
    rw [Nat.add_right_comm, speedLoop, ih, speedLoop]
    congr 1
    push_cast
    ring

theorem speedLoopExact_add (a b : Nat) (i ans : Int) :
    speedLoopExact (a + b) i ans = speedLoopExact b (i + a) (speedLoopExact a i ans) := by
  induction a generalizing i ans with
  | zero => simp [speedLoopExact]
  | succ a ih =>
    rw [Nat.add_right_comm, speedLoopExact, ih, speedLoopExact]
    congr 1
    push_cast
    ring

theorem speedStep_zero (i : Int) : speedStep 0 i = 0 := by
  simp [speedStep, toInt32, MOD]

theorem speedLoop_zero (n : Nat) (i : Int) : speedLoop n i 0 = 0 := by
  induction n generalizing i with
  | zero => rfl
  | succ n ih => rw [speedLoop, speedStep_zero, ih]

set_option maxRecDepth 100000 in
theorem speedLoop_37 : speedLoop 37 1 1 = 0 := by decide

/-- From the 37th iteration on, `ans` is 0. -/
theorem speedLoop_of_ge (k : Nat) (h : 37 ≤ k) : speedLoop k 1 1 = 0 := by
  obtain ⟨m, rfl⟩ := Nat.exists_eq_add_of_le h
  rw [speedLoop_add, speedLoop_37, speedLoop_zero]

/-- The value of `ans` after `k + 1` iterations, from the value after `k`. -/
theorem speedLoop_succ (k : Nat) :
    speedLoop (k + 1) 1 1 = speedStep (speedLoop k 1 1) (k + 1) := by
  rw [speedLoop_add k 1 1 1, speedLoop, speedLoop, Int.add_comm]

/-- The product formed in iteration `k + 1` lies in the 32-bit range. -/
theorem speedLoop_product_range (k : Nat) :
    -2147483648 ≤ speedLoop k 1 1 * ((k : Int) + 1) ∧
      speedLoop k 1 1 * ((k : Int) + 1) < 2147483648 := by
  by_cases h : 37 ≤ k
  · rw [speedLoop_of_ge k h]
    simp
  · have hk : k < 37 := by omega
    clear h
    interval_cases k <;> decide

theorem speedLoopExact_succ (k : Nat) :
    speedLoopExact (k + 1) 1 1 = speedStepExact (speedLoopExact k 1 1) (k + 1) := by
  rw [speedLoopExact_add k 1 1 1, speedLoopExact, speedLoopExact, Int.add_comm]

/-- The loop on 32-bit integers computes what the loop on unbounded integers computes. -/
theorem speedLoop_eq_exact (k : Nat) : speedLoop k 1 1 = speedLoopExact k 1 1 := by
  induction k with
  | zero => rfl
  | succ k ih =>
    rw [speedLoop_succ, speedLoopExact_succ, ← ih, speedStep, speedStepExact,
      toInt32_of_range _ (speedLoop_product_range k).1 (speedLoop_product_range k).2]

theorem speedLoop_TIME : speedLoop TIME 1 1 = 0 :=
  speedLoop_of_ge TIME (by decide)

/-! ## C9 -/

/-- C9. The workload of `FindComputerSpeed`, `ans = (ans * i) % 37` for `i` from 1 to
100000000 starting from `ans = 1`, ends with `ans = 0`; the product `ans * i` of every
iteration lies in the signed 32-bit range, so that the loop computes the same on unbounded
integers; hence the check `ans != 0` does not fail and `FindComputerSpeed` does not raise
its error, whatever time the clock measures. -/
theorem calibration_workload_ends_in_zero :
    speedLoop TIME 1 1 = 0 ∧
    (∀ k : Nat, k < TIME →
      -2147483648 ≤ speedLoop k 1 1 * ((k : Int) + 1) ∧
        speedLoop k 1 1 * ((k : Int) + 1) < 2147483648) ∧
    (∀ k : Nat, k ≤ TIME → speedLoop k 1 1 = speedLoopExact k 1 1) ∧
    (∀ elapsedMs : Nat, FindComputerSpeed elapsedMs = Except.ok (measurement elapsedMs)) := by
  refine ⟨speedLoop_TIME, fun k _ => speedLoop_product_range k, ?_, ?_⟩
  · intro k _
    exact speedLoop_eq_exact k
  · intro elapsedMs
    simp only [FindComputerSpeed, speedLoop_TIME]
    rfl

/-! ## `Encode`, characterised -/

theorem pad_to_string (a : Int) (h0 : 0 ≤ a) (h1 : a < 100) (ret : List Char) :
    (if a < 10 then ret ++ "0".toList else ret) ++ to_string a = ret ++ twoDigits a := by
  have h : (if a < 10 then ([] : List Char) ++ "0".toList else []) ++ to_string a =
      twoDigits a := by
    interval_cases a <;> rfl
  rw [← h]
  by_cases h10 : a < 10 <;> simp [h10]

theorem encodeStep_eq (st : Int × List Char) (a : Int) (h0 : 0 ≤ a) (h1 : a < 100) :
    encodeStep st a = (st.1 + a, st.2 ++ twoDigits a) := by
  simp only [encodeStep, pad_to_string a h0 h1]

theorem encode_foldl (rng : Nat → Int) (l : List Nat) (st : Int × List Char)
    (h : ∀ i ∈ l, 0 ≤ rng i ∧ rng i < 100) :
    l.foldl (fun st i => encodeStep st (rng i)) st =
      (st.1 + (l.map rng).sum, st.2 ++ ((l.map rng).map twoDigits).flatten) := by
  induction l generalizing st with
  | nil => simp
  | cons i rest ih =>
    have hi := h i (List.mem_cons_self _ _)
    rw [List.foldl_cons, encodeStep_eq _ _ hi.1 hi.2,
      ih _ (fun j hj => h j (List.mem_cons_of_mem _ hj))]
    simp [Int.add_assoc]

theorem twoDigits_zero : twoDigits 0 = "00".toList := by rfl

theorem groupValues_twoDigits (a : Int) (h0 : 0 ≤ a) (h1 : a < 100) (rest : List Char) :
    groupValues (twoDigits a ++ rest) = a.toNat :: groupValues rest := by
  have h : 10 * digitValue (Char.ofNat (48 + a.toNat / 10)) +
      digitValue (Char.ofNat (48 + a.toNat % 10)) = a.toNat := by
    interval_cases a <;> rfl
  show groupValues (Char.ofNat (48 + a.toNat / 10) :: Char.ofNat (48 + a.toNat % 10) :: rest) = _
  rw [groupValues, h]

theorem groupValues_flatten (vs : List Int) (h : ∀ v ∈ vs, 0 ≤ v ∧ v < 100) :
    groupValues (vs.map twoDigits).flatten = vs.map Int.toNat := by
  induction vs with
  | nil => rfl
  | cons v rest ih =>
    have hv := h v (List.mem_cons_self _ _)
    rw [List.map_cons, List.flatten_cons, groupValues_twoDigits v hv.1 hv.2,
      ih (fun w hw => h w (List.mem_cons_of_mem _ hw)), List.map_cons]

theorem twoDigits_isDigit (a : Int) (h0 : 0 ≤ a) (h1 : a < 100) :
    ∀ c ∈ twoDigits a, c.isDigit = true := by
  interval_cases a <;> decide

theorem sum_toNat (vs : List Int) (h : ∀ v ∈ vs, 0 ≤ v ∧ v < 100) :
    (((vs.map Int.toNat).sum : Nat) : Int) = vs.sum := by
  induction vs with
  | nil => rfl
  | cons v rest ih =>
    have hv := h v (List.mem_cons_self _ _)
    rw [List.map_cons, List.sum_cons, List.sum_cons, Nat.cast_add,
      ih (fun w hw => h w (List.mem_cons_of_mem _ hw)), Int.toNat_of_nonneg hv.1]

theorem sum_nonneg (vs : List Int) (h : ∀ v ∈ vs, 0 ≤ v ∧ v < 100) : 0 ≤ vs.sum := by
  induction vs with
  | nil => simp
  | cons v rest ih =>
    have hv := h v (List.mem_cons_self _ _)
    have := ih (fun w hw => h w (List.mem_cons_of_mem _ hw))
    rw [List.sum_cons]
    omega

theorem flatten_twoDigits_length (vs : List Int) :
    (vs.map twoDigits).flatten.length = 2 * vs.length := by
  induction vs with
  | nil => rfl
  | cons v rest ih =>
    rw [List.map_cons, List.flatten_cons, List.length_append, ih, List.length_cons]
    simp only [twoDigits, List.length_cons, List.length_nil]
    omega

theorem flatten_twoDigits_group (vs : List Int) (i : Nat) (v : Int) (h : vs[i]? = some v) :
    (((vs.map twoDigits).flatten).drop (2 * i)).take 2 = twoDigits v := by
  induction vs generalizing i with
  | nil => simp at h
  | cons w rest ih =>
    cases i with
    | zero =>
      simp only [List.getElem?_cons_zero, Option.some.injEq] at h
      subst h
      simp [twoDigits]
    | succ i =>
      simp only [List.getElem?_cons_succ] at h
      have := ih i h
      rw [List.map_cons, List.flatten_cons]
      have e : 2 * (i + 1) = (twoDigits w).length + 2 * i := by
        simp only [twoDigits, List.length_cons, List.length_nil]
        omega
      rw [e, List.drop_append]
      exact this

/-- The string `Encode` returns: the two digits of each of the eleven drawn values, then the
two digits of a twelfth value that brings the sum to 20 modulo 100. -/
theorem Encode_eq (rng : Nat → Int) (h : ∀ i, i < 11 → 0 ≤ rng i ∧ rng i < 100) :
    ∃ last : Int, 0 ≤ last ∧ last < 100 ∧
      Encode rng = ((((List.range 11).map rng) ++ [last]).map twoDigits).flatten ∧
      (((List.range 11).map rng).sum + last) % 100 = 20 := by
  have hl : ∀ i ∈ List.range 11, 0 ≤ rng i ∧ rng i < 100 := fun i hi =>
    h i (List.mem_range.mp hi)
  have hfold := encode_foldl rng (List.range 11) (0, []) hl
  have hS : 0 ≤ ((List.range 11).map rng).sum :=
    sum_nonneg _ (fun v hv => by
      obtain ⟨i, hi, rfl⟩ := List.mem_map.mp hv
      exact hl i hi)
  have hE : Encode rng =
      (let st := (List.range 11).foldl (fun st i => encodeStep st (rng i)) (0, [])
       let sum := Int.tmod st.1 100
       let ret := st.2
       if sum = 20 then ret ++ "00".toList
       else if sum < 20 then
         (if 20 - sum < 10 then ret ++ "0".toList else ret) ++ to_string (20 - sum)
       else ret ++ to_string (120 - sum)) := rfl
  rw [hE, hfold]
  simp only [Int.zero_add, List.nil_append]
  generalize ((List.range 11).map rng).sum = S at hS ⊢
  generalize (List.map rng (List.range 11)) = vs
  have hmod : Int.tmod S 100 = S % 100 := by
    rw [Int.tmod_eq_emod hS (by norm_num)]
  rw [hmod]
  have hr0 : 0 ≤ S % 100 := Int.emod_nonneg _ (by norm_num)
  have hr1 : S % 100 < 100 := Int.emod_lt_of_pos _ (by norm_num)
  by_cases h20 : S % 100 = 20
  · refine ⟨0, le_refl _, by norm_num, ?_, by omega⟩
    rw [if_pos h20]
    simp [twoDigits_zero]
  · rw [if_neg h20]
    by_cases hlt : S % 100 < 20
    · refine ⟨20 - S % 100, by omega, by omega, ?_, by omega⟩
      rw [if_pos hlt, pad_to_string _ (by omega) (by omega)]
      simp
    · refine ⟨120 - S % 100, by omega, by omega, ?_, by omega⟩
      rw [if_neg hlt]
      have hp := pad_to_string (120 - S % 100) (by omega) (by omega) (vs.map twoDigits).flatten
      rw [if_neg (by omega)] at hp
      rw [hp]
      simp

/-! ## C10 -/

/-- C10. For eleven drawn values in the range 0..99, `Encode` returns a string of exactly 24
decimal digits, that is 12 two-digit groups; the first 11 groups are the drawn values and the
12 group values sum to a number congruent to 20 modulo 100. -/
theorem Encode_24_digits_sum_20 (rng : Nat → Int)
    (h : ∀ i, i < 11 → 0 ≤ rng i ∧ rng i < 100) :
    (Encode rng).length = 2 * CODE_LENGTH ∧
    (∀ c ∈ Encode rng, c.isDigit = true) ∧
    (groupValues (Encode rng)).length = CODE_LENGTH ∧
    (∀ i, i < 11 → (groupValues (Encode rng))[i]? = some (rng i).toNat) ∧
    (∀ i, i < 11 → ((Encode rng).drop (2 * i)).take 2 = twoDigits (rng i)) ∧
    (groupValues (Encode rng)).sum % 100 = 20 := by
  obtain ⟨last, h0, h1, hE, hsum⟩ := Encode_eq rng h
  have hall : ∀ v ∈ (List.range 11).map rng ++ [last], 0 ≤ v ∧ v < 100 := by
    intro v hv
    rcases List.mem_append.mp hv with hv | hv
    · obtain ⟨i, hi, rfl⟩ := List.mem_map.mp hv
      exact h i (List.mem_range.mp hi)
    · rw [List.mem_singleton.mp hv]
      exact ⟨h0, h1⟩
  have hG := groupValues_flatten _ hall
  rw [← hE] at hG
  have hget : ∀ i, i < 11 → ((List.range 11).map rng ++ [last])[i]? = some (rng i) := by
    intro i hi
    rw [List.getElem?_append_left (by simpa using hi), List.getElem?_map,
      List.getElem?_range hi]
    rfl
  refine ⟨?_, ?_, ?_, ?_, ?_, ?_⟩
  · rw [hE, flatten_twoDigits_length]
    simp [CODE_LENGTH]
  · intro c hc
    rw [hE] at hc
    obtain ⟨l, hl, hcl⟩ := List.mem_flatten.mp hc
    obtain ⟨v, hv, rfl⟩ := List.mem_map.mp hl
    exact twoDigits_isDigit v (hall v hv).1 (hall v hv).2 c hcl
  · rw [hG]
    simp [CODE_LENGTH]
  · intro i hi
    rw [hG, List.getElem?_map, hget i hi]
    rfl
  · intro i hi
    rw [hE]
    exact flatten_twoDigits_group _ i _ (hget i hi)
  · rw [hG]
    have hc := sum_toNat _ hall
    rw [List.sum_append, List.sum_singleton] at hc
    omega

/-- The draws 0, 9, 18, ..., 90: `Encode` returns `000918273645546372819025`, whose groups sum
to 520. -/
theorem Encode_24_digits_sum_20_witness :
    (∀ i : Nat, i < 11 → 0 ≤ (i : Int) * 9 ∧ (i : Int) * 9 < 100) ∧
      Encode (fun i => (i : Int) * 9) = "000918273645546372819025".toList ∧
      (groupValues (Encode (fun i => (i : Int) * 9))).sum % 100 = 20 :=
  ⟨by decide, by decide,
    (Encode_24_digits_sum_20 (fun i => (i : Int) * 9) (by decide)).2.2.2.2.2⟩

/-! ## Rounding to `double`, characterised -/

theorem roundNE_intCast (z : ℤ) : roundNE (z : ℚ) = z := by
  simp [roundNE]

theorem roundNE_bounds (x : ℚ) : (⌊x⌋ : ℤ) ≤ roundNE x ∧ roundNE x ≤ ⌊x⌋ + 1 := by
  unfold roundNE
  simp only []
  split_ifs <;> omega

/-- Rounding to the nearest integer moves a number by at most one half. -/
theorem roundNE_error (x : ℚ) : |(roundNE x : ℚ) - x| ≤ 1 / 2 := by
  have h1 := Int.floor_le x
  have h2 := Int.lt_floor_add_one x
  unfold roundNE
  simp only []
  rw [abs_le]
  split_ifs <;> push_cast <;> constructor <;> linarith

theorem roundNE_mono {x y : ℚ} (h : x ≤ y) : roundNE x ≤ roundNE y := by
  have hf : ⌊x⌋ ≤ ⌊y⌋ := Int.floor_mono h
  rcases lt_or_eq_of_le hf with hlt | heq
  · have := (roundNE_bounds x).2
    have := (roundNE_bounds y).1
    omega
  · unfold roundNE
    simp only []
    rw [heq]
    have hxy : x - (⌊y⌋ : ℚ) ≤ y - (⌊y⌋ : ℚ) := by linarith
    split_ifs <;> first | omega | (exfalso; linarith)

theorem two_zpow_pos (k : ℤ) : (0 : ℚ) < (2 : ℚ) ^ k := zpow_pos (by norm_num) k

theorem log_spec (q : ℚ) (hq : 0 < q) :
    (2 : ℚ) ^ Int.log 2 q ≤ q ∧ q < (2 : ℚ) ^ (Int.log 2 q + 1) := by
  have h1 := Int.zpow_log_le_self (R := ℚ) (b := 2) (r := q) (by norm_num) hq
  have h2 := Int.lt_zpow_succ_log_self (R := ℚ) (b := 2) (by norm_num) q
  exact ⟨by exact_mod_cast h1, by exact_mod_cast h2⟩

theorem log_eq_of_bounds (q : ℚ) (e : ℤ) (h1 : (2 : ℚ) ^ e ≤ q) (h2 : q < (2 : ℚ) ^ (e + 1)) :
    Int.log 2 q = e := by
  have hq : 0 < q := lt_of_lt_of_le (two_zpow_pos e) h1
  have a : e ≤ Int.log 2 q :=
    (Int.zpow_le_iff_le_log (R := ℚ) (b := 2) (by norm_num) hq).mp (by exact_mod_cast h1)
  have b : Int.log 2 q < e + 1 :=
    (Int.lt_zpow_iff_log_lt (R := ℚ) (b := 2) (by norm_num) hq).mp (by exact_mod_cast h2)
  omega

theorem fl_zero : fl 0 = 0 := by
  simp [fl]

theorem fl_of_pos (q : ℚ) (hq : 0 < q) :
    fl q = (roundNE (q / (2 : ℚ) ^ (Int.log 2 q - 52)) : ℚ) * (2 : ℚ) ^ (Int.log 2 q - 52) := by
  unfold fl ulpExp
  rw [if_neg (ne_of_gt hq), abs_of_pos hq]

/-- The scaled value lies between `2 ^ 52` and `2 ^ 53`. -/
theorem scaled_bounds (q : ℚ) (hq : 0 < q) :
    (2 : ℚ) ^ (52 : ℕ) ≤ q / (2 : ℚ) ^ (Int.log 2 q - 52) ∧
      q / (2 : ℚ) ^ (Int.log 2 q - 52) < (2 : ℚ) ^ (53 : ℕ) := by
  obtain ⟨h1, h2⟩ := log_spec q hq
  have hk := two_zpow_pos (Int.log 2 q - 52)
  have e1 : (2 : ℚ) ^ Int.log 2 q = (2 : ℚ) ^ (52 : ℕ) * (2 : ℚ) ^ (Int.log 2 q - 52) := by
    rw [← zpow_natCast, ← zpow_add₀ (by norm_num : (2 : ℚ) ≠ 0)]
    congr 1
    push_cast
    ring
  have e2 : (2 : ℚ) ^ (Int.log 2 q + 1) =
      (2 : ℚ) ^ (53 : ℕ) * (2 : ℚ) ^ (Int.log 2 q - 52) := by
    rw [← zpow_natCast, ← zpow_add₀ (by norm_num : (2 : ℚ) ≠ 0)]
    congr 1
    push_cast
    ring
  constructor
  · rw [le_div_iff₀ hk, ← e1]
    exact h1
  · rw [div_lt_iff₀ hk, ← e2]
    exact h2

/-- The double nearest to a positive `q` lies in the same binade, ends included. -/
theorem fl_binade (q : ℚ) (hq : 0 < q) :
    (2 : ℚ) ^ Int.log 2 q ≤ fl q ∧ fl q ≤ (2 : ℚ) ^ (Int.log 2 q + 1) := by
  obtain ⟨h1, h2⟩ := scaled_bounds q hq
  have hk := two_zpow_pos (Int.log 2 q - 52)
  have r1 : ((2 : ℤ) ^ (52 : ℕ) : ℤ) ≤ roundNE (q / (2 : ℚ) ^ (Int.log 2 q - 52)) := by
    have := roundNE_mono h1
    rw [show ((2 : ℚ) ^ (52 : ℕ)) = (((2 : ℤ) ^ (52 : ℕ) : ℤ) : ℚ) by push_cast; rfl,
      roundNE_intCast] at this
    exact this
  have r2 : roundNE (q / (2 : ℚ) ^ (Int.log 2 q - 52)) ≤ ((2 : ℤ) ^ (53 : ℕ) : ℤ) := by
    have := roundNE_mono (le_of_lt h2)
    rw [show ((2 : ℚ) ^ (53 : ℕ)) = (((2 : ℤ) ^ (53 : ℕ) : ℤ) : ℚ) by push_cast; rfl,
      roundNE_intCast] at this
    exact this
  have e1 : (2 : ℚ) ^ Int.log 2 q = (2 : ℚ) ^ (52 : ℕ) * (2 : ℚ) ^ (Int.log 2 q - 52) := by
    rw [← zpow_natCast, ← zpow_add₀ (by norm_num : (2 : ℚ) ≠ 0)]
    congr 1
    push_cast
    ring
  have e2 : (2 : ℚ) ^ (Int.log 2 q + 1) =
      (2 : ℚ) ^ (53 : ℕ) * (2 : ℚ) ^ (Int.log 2 q - 52) := by
    rw [← zpow_natCast, ← zpow_add₀ (by norm_num : (2 : ℚ) ≠ 0)]
    congr 1
    push_cast
    ring
  rw [fl_of_pos q hq, e1, e2]
  constructor
  · apply mul_le_mul_of_nonneg_right _ (le_of_lt hk)
    exact_mod_cast r1
  · apply mul_le_mul_of_nonneg_right _ (le_of_lt hk)
    exact_mod_cast r2

theorem fl_pos (q : ℚ) (hq : 0 < q) : 0 < fl q :=
  lt_of_lt_of_le (two_zpow_pos _) (fl_binade q hq).1

theorem fl_nonneg (q : ℚ) (hq : 0 ≤ q) : 0 ≤ fl q := by
  rcases eq_or_lt_of_le hq with h | h
  · rw [← h, fl_zero]
  · exact le_of_lt (fl_pos q h)

/-- Rounding to `double` is monotone on the non-negative rationals. -/
theorem fl_mono {x y : ℚ} (hx : 0 ≤ x) (h : x ≤ y) : fl x ≤ fl y := by
  rcases eq_or_lt_of_le hx with h0 | h0
  · rw [← h0, fl_zero]
    exact fl_nonneg y (le_trans hx h)
  · have hy : 0 < y := lt_of_lt_of_le h0 h
    have hlog : Int.log 2 x ≤ Int.log 2 y := Int.log_mono_right h0 h
    rcases lt_or_eq_of_le hlog with hlt | heq
    · calc fl x ≤ (2 : ℚ) ^ (Int.log 2 x + 1) := (fl_binade x h0).2
        _ ≤ (2 : ℚ) ^ Int.log 2 y := zpow_le_zpow_right₀ (by norm_num) (by omega)
        _ ≤ fl y := (fl_binade y hy).1
    · rw [fl_of_pos x h0, fl_of_pos y hy, heq]
      have hk := two_zpow_pos (Int.log 2 y - 52)
      apply mul_le_mul_of_nonneg_right _ (le_of_lt hk)
      have : x / (2 : ℚ) ^ (Int.log 2 y - 52) ≤ y / (2 : ℚ) ^ (Int.log 2 y - 52) :=
        div_le_div_of_nonneg_right h (le_of_lt hk)
      exact_mod_cast roundNE_mono this

/-- The relative error of rounding to `double` is at most `2 ^ (-53)`. -/
theorem fl_error (q : ℚ) (hq : 0 ≤ q) : |fl q - q| ≤ q / 2 ^ (53 : ℕ) := by
  rcases eq_or_lt_of_le hq with h0 | h0
  · rw [← h0, fl_zero]
    simp
  · have hk := two_zpow_pos (Int.log 2 q - 52)
    have herr := roundNE_error (q / (2 : ℚ) ^ (Int.log 2 q - 52))
    have hs := (scaled_bounds q h0).1
    rw [fl_of_pos q h0]
    have e : (roundNE (q / (2 : ℚ) ^ (Int.log 2 q - 52)) : ℚ) * (2 : ℚ) ^ (Int.log 2 q - 52) - q =
        ((roundNE (q / (2 : ℚ) ^ (Int.log 2 q - 52)) : ℚ) - q / (2 : ℚ) ^ (Int.log 2 q - 52)) *
          (2 : ℚ) ^ (Int.log 2 q - 52) := by
      field_simp
    rw [e, abs_mul, abs_of_pos hk]
    have hq' : q = q / (2 : ℚ) ^ (Int.log 2 q - 52) * (2 : ℚ) ^ (Int.log 2 q - 52) := by
      field_simp
    calc |(roundNE (q / (2 : ℚ) ^ (Int.log 2 q - 52)) : ℚ) - q / (2 : ℚ) ^ (Int.log 2 q - 52)| *
          (2 : ℚ) ^ (Int.log 2 q - 52)
        ≤ 1 / 2 * (2 : ℚ) ^ (Int.log 2 q - 52) :=
          mul_le_mul_of_nonneg_right herr (le_of_lt hk)
      _ ≤ (q / (2 : ℚ) ^ (Int.log 2 q - 52) / 2 ^ (53 : ℕ)) * (2 : ℚ) ^ (Int.log 2 q - 52) := by
          apply mul_le_mul_of_nonneg_right _ (le_of_lt hk)
          rw [le_div_iff₀ (by positivity)]
          calc (1 : ℚ) / 2 * 2 ^ (53 : ℕ) = 2 ^ (52 : ℕ) := by norm_num
            _ ≤ _ := hs
      _ = q / 2 ^ (53 : ℕ) := by
          field_simp
          ring

/-- A positive rational whose scaled value is an integer is a `double`. -/
theorem fl_eq_self (q : ℚ) (e : ℤ) (m : ℤ) (h1 : (2 : ℚ) ^ e ≤ q) (h2 : q < (2 : ℚ) ^ (e + 1))
    (hm : q = (m : ℚ) * (2 : ℚ) ^ (e - 52)) : fl q = q := by
  have hq : 0 < q := lt_of_lt_of_le (two_zpow_pos e) h1
  have hlog := log_eq_of_bounds q e h1 h2
  rw [fl_of_pos q hq, hlog]
  have hk := two_zpow_pos (e - 52)
  have : q / (2 : ℚ) ^ (e - 52) = (m : ℚ) := by
    rw [div_eq_iff (ne_of_gt hk)]
    exact hm
  rw [this, roundNE_intCast]
  exact hm.symm

theorem roundNE_eq_of_near (x : ℚ) (m : ℤ) (h : |x - (m : ℚ)| < 1 / 2) : roundNE x = m := by
  have herr := roundNE_error x
  rw [abs_le] at herr
  rw [abs_lt] at h
  have h1 : ((roundNE x : ℤ) : ℚ) < (m : ℚ) + 1 := by linarith
  have h2 : (m : ℚ) - 1 < ((roundNE x : ℤ) : ℚ) := by linarith
  have h1' : roundNE x < m + 1 := by exact_mod_cast h1
  have h2' : m - 1 < roundNE x := by exact_mod_cast h2
  omega

/-- The double nearest to `q`, from the binade of `q` and the integer nearest to the scaled
value. -/
theorem fl_eval (q : ℚ) (e : ℤ) (m : ℤ) (h1 : (2 : ℚ) ^ e ≤ q) (h2 : q < (2 : ℚ) ^ (e + 1))
    (hm : |q / (2 : ℚ) ^ (e - 52) - (m : ℚ)| < 1 / 2) : fl q = (m : ℚ) * (2 : ℚ) ^ (e - 52) := by
  have hq : 0 < q := lt_of_lt_of_le (two_zpow_pos e) h1
  rw [fl_of_pos q hq, log_eq_of_bounds q e h1 h2, roundNE_eq_of_near _ m hm]

/-- A natural number below `2 ^ 53` is a `double`. -/
theorem fl_natCast (n : ℕ) (h : n < 2 ^ 53) : fl (n : ℚ) = n := by
  rcases Nat.eq_zero_or_pos n with h0 | h0
  · rw [h0]
    simpa using fl_zero
  · have hn : n ≠ 0 := Nat.pos_iff_ne_zero.mp h0
    have l1 : 2 ^ Nat.log 2 n ≤ n := Nat.pow_log_le_self 2 hn
    have l2 : n < 2 ^ (Nat.log 2 n + 1) := Nat.lt_pow_succ_log_self (by norm_num) n
    have l3 : Nat.log 2 n < 53 := by
      have : 2 ^ Nat.log 2 n < 2 ^ 53 := lt_of_le_of_lt l1 h
      exact (Nat.pow_lt_pow_iff_right (by norm_num)).mp this
    apply fl_eq_self (n : ℚ) (Nat.log 2 n : ℤ) ((n * 2 ^ (52 - Nat.log 2 n) : ℕ) : ℤ)
    · rw [zpow_natCast]
      exact_mod_cast l1
    · rw [show ((Nat.log 2 n : ℤ) + 1) = ((Nat.log 2 n + 1 : ℕ) : ℤ) by push_cast; rfl,
        zpow_natCast]
      exact_mod_cast l2
    · have e : ((Nat.log 2 n : ℤ) - 52) = -((52 - Nat.log 2 n : ℕ) : ℤ) := by
        rw [Nat.cast_sub (by omega)]
        push_cast
        ring
      rw [e, zpow_neg, zpow_natCast]
      push_cast
      field_simp

theorem fl_intCast (z : ℤ) (h0 : 0 ≤ z) (h : z < 2 ^ 53) : fl (z : ℚ) = z := by
  obtain ⟨n, rfl⟩ := Int.eq_ofNat_of_zero_le h0
  have hn : n < 2 ^ 53 := by exact_mod_cast h
  simpa using fl_natCast n hn

theorem fl_one : fl 1 = 1 := by
  simpa using fl_natCast 1 (by norm_num)

theorem fl_hundred : fl 100 = 100 := by
  simpa using fl_natCast 100 (by norm_num)

/-- The double written `0.1` is `0.1000000000000000055511151231257827...`. -/
theorem fl_tenth : fl (1 / 10) = 3602879701896397 / 36028797018963968 := by
  rw [fl_eval (1 / 10) (-4) 7205759403792794 (by norm_num) (by norm_num)
    (by rw [abs_lt]; norm_num)]
  norm_num

theorem fl_third : fl (1 / 3) = 6004799503160661 / 18014398509481984 := by
  rw [fl_eval (1 / 3) (-2) 6004799503160661 (by norm_num) (by norm_num)
    (by rw [abs_lt]; norm_num)]
  norm_num

/-- The constant `MY_TIME_COST` is the double `0.34949999999999997735...`. -/
theorem MY_TIME_COST_eq : MY_TIME_COST = 6296032279063953 / 18014398509481984 := by
  unfold MY_TIME_COST
  rw [fl_eval (3495 / 10000) (-2) 6296032279063953 (by norm_num) (by norm_num)
    (by rw [abs_lt]; norm_num)]
  norm_num

theorem score_one_three : score 1 3 = 4691249611844266 / 140737488355328 := by
  unfold score
  have h1 : fl ((1 : ℤ) : ℚ) = 1 := by simpa using fl_one
  have h3 : fl ((3 : ℤ) : ℚ) = 3 := by simpa using fl_natCast 3 (by norm_num)
  rw [h1, h3, fl_third]
  rw [fl_eval (6004799503160661 / 18014398509481984 * 100) 5 4691249611844266 (by norm_num)
    (by norm_num) (by rw [abs_lt]; norm_num)]
  norm_num

/-! ## The score, characterised -/

theorem score_eq (c n : ℤ) (hc : 0 ≤ c) (hn0 : 0 ≤ n) (hc53 : c < 2 ^ 53) (hn53 : n < 2 ^ 53) :
    score c n = fl (fl ((c : ℚ) / (n : ℚ)) * 100) := by
  unfold score
  rw [fl_intCast c hc hc53, fl_intCast n hn0 hn53]

theorem score_facts (c n : ℤ) (hc : 0 ≤ c) (hcn : c ≤ n) (hn : 0 < n) (hn31 : n < 2147483648) :
    0 ≤ score c n ∧ score c n ≤ 100 ∧
      |score c n - 100 * (c : ℚ) / (n : ℚ)| ≤ 100 * (c : ℚ) / (n : ℚ) / 2 ^ (51 : ℕ) := by
  rw [score_eq c n hc (le_of_lt hn) (by omega) (by omega)]
  have hnq : (0 : ℚ) < (n : ℚ) := by exact_mod_cast hn
  have hcq : (0 : ℚ) ≤ (c : ℚ) := by exact_mod_cast hc
  have hcnq : (c : ℚ) ≤ (n : ℚ) := by exact_mod_cast hcn
  have hT0 : 0 ≤ (c : ℚ) / (n : ℚ) := div_nonneg hcq (le_of_lt hnq)
  have hT1 : (c : ℚ) / (n : ℚ) ≤ 1 := (div_le_one hnq).mpr hcnq
  have hx0 : 0 ≤ fl ((c : ℚ) / (n : ℚ)) := fl_nonneg _ hT0
  have hx1 : fl ((c : ℚ) / (n : ℚ)) ≤ 1 := by
    have := fl_mono hT0 hT1
    rwa [fl_one] at this
  have hy0 : 0 ≤ fl ((c : ℚ) / (n : ℚ)) * 100 := by positivity
  have e1 := fl_error _ hT0
  have e2 := fl_error _ hy0
  refine ⟨fl_nonneg _ hy0, ?_, ?_⟩
  · have := fl_mono hy0 (show fl ((c : ℚ) / (n : ℚ)) * 100 ≤ 100 by linarith)
    rwa [fl_hundred] at this
  · rw [show 100 * (c : ℚ) / (n : ℚ) = 100 * ((c : ℚ) / (n : ℚ)) by ring]
    generalize (c : ℚ) / (n : ℚ) = T at *
    generalize fl T = x at *
    generalize fl (x * 100) = y at *
    rw [abs_le] at e1 e2 ⊢
    norm_num at e1 e2 ⊢
    constructor <;> linarith

theorem score_mono (c1 c2 n : ℤ) (h0 : 0 ≤ c1) (h12 : c1 ≤ c2) (h2n : c2 ≤ n) (hn : 0 < n)
    (hn31 : n < 2147483648) : score c1 n ≤ score c2 n := by
  rw [score_eq c1 n h0 (le_of_lt hn) (by omega) (by omega),
    score_eq c2 n (by omega) (le_of_lt hn) (by omega) (by omega)]
  have hnq : (0 : ℚ) < (n : ℚ) := by exact_mod_cast hn
  have hcq : (0 : ℚ) ≤ (c1 : ℚ) := by exact_mod_cast h0
  have h12q : (c1 : ℚ) ≤ (c2 : ℚ) := by exact_mod_cast h12
  have hT0 : 0 ≤ (c1 : ℚ) / (n : ℚ) := div_nonneg hcq (le_of_lt hnq)
  have hT : (c1 : ℚ) / (n : ℚ) ≤ (c2 : ℚ) / (n : ℚ) :=
    div_le_div_of_nonneg_right h12q (le_of_lt hnq)
  have hx := fl_mono hT0 hT
  have hx0 := fl_nonneg _ hT0
  exact fl_mono (by positivity) (by linarith)

theorem score_zero (n : ℤ) (hn : 0 < n) (hn31 : n < 2147483648) : score 0 n = 0 := by
  rw [score_eq 0 n (le_refl _) (le_of_lt hn) (by norm_num) (by omega)]
  simp [fl_zero]

theorem score_all (n : ℤ) (hn : 0 < n) (hn31 : n < 2147483648) : score n n = 100 := by
  rw [score_eq n n (le_of_lt hn) (le_of_lt hn) (by omega) (by omega)]
  have hnq : (n : ℚ) ≠ 0 := by exact_mod_cast (ne_of_gt hn)
  rw [div_self hnq, fl_one, one_mul, fl_hundred]

theorem correct_le_length (dir : TestCaseDir) (raw : List Nat) :
    (aggregate dir raw).correct ≤ raw.length := by
  rw [aggregate_eq]
  simp only
  rw [← classifyFrom_length dir 1 raw]
  exact List.count_le_length _ _

/-! ## C6 -/

/-- C6, as stated, fails: for the run `exampleDir`, with 1 correct test case of 3, the score
computed in double precision is `4691249611844266 / 2 ^ 47 = 33.33333333333333`, not the
rational number `100 / 3`. -/
theorem score_one_of_three_not_exact :
    (aggregate exampleDir [TIME_OUT, RUNTIME_ERROR, SUCCESS]).correct = 1 ∧
      score (aggregate exampleDir [TIME_OUT, RUNTIME_ERROR, SUCCESS]).correct
        ([TIME_OUT, RUNTIME_ERROR, SUCCESS] : List Nat).length ≠ 100 * 1 / 3 := by
  have h : (aggregate exampleDir [TIME_OUT, RUNTIME_ERROR, SUCCESS]).correct = 1 := by decide
  refine ⟨h, ?_⟩
  rw [h]
  have e : score ((1 : ℕ) : ℤ) (([TIME_OUT, RUNTIME_ERROR, SUCCESS] : List Nat).length : ℤ) =
      score 1 3 := rfl
  rw [e, score_one_three]
  norm_num

/-- C6, amended. For a run of `testCases` test cases, `1 ≤ testCases < 2 ^ 31`, the score
computed by `RunSolution` from `correct`, the number of AC statuses, lies in [0, 100], differs
from `100 × correct / testCases` by at most that number times `2 ^ (-51)` (it is the double
precision value of `correct / testCases * 100`), is 0 when no test case is correct and 100
when all are, and is non-decreasing in the number of correct test cases for a fixed
`testCases`. -/
theorem score_in_range_and_monotone (dir : TestCaseDir) (raw : List Nat) (hne : raw ≠ [])
    (hlen : raw.length < 2147483648) :
    (aggregate dir raw).correct = (aggregate dir raw).outputStatus.count AC ∧
    (aggregate dir raw).correct ≤ raw.length ∧
    0 ≤ score (aggregate dir raw).correct raw.length ∧
    score (aggregate dir raw).correct raw.length ≤ 100 ∧
    |score (aggregate dir raw).correct raw.length -
        100 * ((aggregate dir raw).correct : ℚ) / (raw.length : ℚ)| ≤
      100 * ((aggregate dir raw).correct : ℚ) / (raw.length : ℚ) / 2 ^ (51 : ℕ) ∧
    ((aggregate dir raw).correct = 0 → score (aggregate dir raw).correct raw.length = 0) ∧
    ((aggregate dir raw).correct = raw.length →
      score (aggregate dir raw).correct raw.length = 100) ∧
    (∀ c1 c2 : ℕ, c1 ≤ c2 → c2 ≤ raw.length → score c1 raw.length ≤ score c2 raw.length) := by
  have hc := correct_le_length dir raw
  have hpos : 0 < raw.length := List.length_pos.mpr hne
  have hn : (0 : ℤ) < (raw.length : ℤ) := by exact_mod_cast hpos
  have hn31 : (raw.length : ℤ) < 2147483648 := by exact_mod_cast hlen
  have hf := score_facts ((aggregate dir raw).correct : ℤ) (raw.length : ℤ)
    (Int.natCast_nonneg _) (by exact_mod_cast hc) hn hn31
  refine ⟨by rw [aggregate_eq], hc, hf.1, hf.2.1, ?_, ?_, ?_, ?_⟩
  · simpa using hf.2.2
  · intro h0
    rw [h0]
    exact score_zero _ hn hn31
  · intro hall
    rw [hall]
    exact score_all _ hn hn31
  · intro c1 c2 h12 h2n
    exact score_mono c1 c2 raw.length (Int.natCast_nonneg _) (by exact_mod_cast h12)
      (by exact_mod_cast h2n) hn hn31

/-- The run `exampleDir`: 1 correct test case of 3, and a score between 0 and 100. -/
theorem score_in_range_and_monotone_witness :
    ([TIME_OUT, RUNTIME_ERROR, SUCCESS] : List Nat) ≠ [] ∧
      ([TIME_OUT, RUNTIME_ERROR, SUCCESS] : List Nat).length < 2147483648 ∧
      0 ≤ score (aggregate exampleDir [TIME_OUT, RUNTIME_ERROR, SUCCESS]).correct
        ([TIME_OUT, RUNTIME_ERROR, SUCCESS] : List Nat).length ∧
      score (aggregate exampleDir [TIME_OUT, RUNTIME_ERROR, SUCCESS]).correct
        ([TIME_OUT, RUNTIME_ERROR, SUCCESS] : List Nat).length ≤ 100 :=
  ⟨by decide, by decide,
    (score_in_range_and_monotone exampleDir [TIME_OUT, RUNTIME_ERROR, SUCCESS] (by decide)
      (by decide)).2.2.1,
    (score_in_range_and_monotone exampleDir [TIME_OUT, RUNTIME_ERROR, SUCCESS] (by decide)
      (by decide)).2.2.2.1⟩

/-! ## `FixTimeLimit`, characterised -/

theorem FindComputerSpeed_eq (elapsedMs : Nat) :
    FindComputerSpeed elapsedMs = Except.ok (measurement elapsedMs) := by
  simp only [FindComputerSpeed, speedLoop_TIME]
  rfl

theorem measurement_nonneg (ms : Nat) : 0 ≤ measurement ms :=
  fl_nonneg _ (div_nonneg (fl_nonneg _ (Nat.cast_nonneg ms)) (by norm_num))

theorem averageLoop_zero (elapsedMs : Nat → Nat) (i : Nat) (average : ℚ) :
    averageLoop elapsedMs 0 i average = Except.ok average := by
  rw [averageLoop]

theorem averageLoop_succ (elapsedMs : Nat → Nat) (n i : Nat) (average : ℚ) :
    averageLoop elapsedMs (n + 1) i average =
      averageLoop elapsedMs n (i + 1) (fl (average + measurement (elapsedMs i))) := by
  rw [averageLoop, FindComputerSpeed_eq]
  rfl

theorem FixTimeLimit_eq (elapsedMs : Nat → Nat) :
    FixTimeLimit elapsedMs = Except.ok (fl (fl
      (fl (fl (fl (fl (fl (0 + measurement (elapsedMs 0)) + measurement (elapsedMs 1)) +
        measurement (elapsedMs 2)) + measurement (elapsedMs 3)) +
        measurement (elapsedMs 4)) / 5) / MY_TIME_COST)) := by
  have h : averageLoop elapsedMs TEST_NUM 0 0 = Except.ok
      (fl (fl (fl (fl (fl (0 + measurement (elapsedMs 0)) + measurement (elapsedMs 1)) +
        measurement (elapsedMs 2)) + measurement (elapsedMs 3)) +
        measurement (elapsedMs 4))) := by
    rw [show TEST_NUM = 0 + 1 + 1 + 1 + 1 + 1 from rfl, averageLoop_succ, averageLoop_succ,
      averageLoop_succ, averageLoop_succ, averageLoop_succ, averageLoop_zero]
  rw [FixTimeLimit, h]
  simp only [Except.bind, TEST_NUM]
  norm_num

theorem fl_pos_iff (q : ℚ) (h : 0 ≤ q) : 0 < fl q ↔ 0 < q := by
  constructor
  · intro hf
    rcases eq_or_lt_of_le h with h0 | h0
    · rw [← h0, fl_zero] at hf
      exact absurd hf (lt_irrefl _)
    · exact h0
  · exact fl_pos q

theorem measurement_pos_iff (ms : Nat) : 0 < measurement ms ↔ ms ≠ 0 := by
  unfold measurement
  rw [fl_pos_iff _ (div_nonneg (fl_nonneg _ (Nat.cast_nonneg ms)) (by norm_num)),
    div_pos_iff_of_pos_right (by norm_num), fl_pos_iff _ (Nat.cast_nonneg ms), Nat.cast_pos,
    Nat.pos_iff_ne_zero]

theorem fl_add_pos_iff (a b : ℚ) (ha : 0 ≤ a) (hb : 0 ≤ b) :
    0 < fl (a + b) ↔ 0 < a ∨ 0 < b := by
  rw [fl_pos_iff _ (add_nonneg ha hb)]
  constructor
  · intro h
    by_contra hn
    push_neg at hn
    linarith [hn.1, hn.2]
  · rintro (h | h) <;> linarith

theorem MY_TIME_COST_pos : 0 < MY_TIME_COST := by
  rw [MY_TIME_COST_eq]
  norm_num

/-- The multiplier as a function of the five values returned by `FindComputerSpeed`. -/
theorem FixTimeLimit_eq_multiplierOf (elapsedMs : Nat → Nat) :
    FixTimeLimit elapsedMs = Except.ok (multiplierOf (measurement (elapsedMs 0))
      (measurement (elapsedMs 1)) (measurement (elapsedMs 2)) (measurement (elapsedMs 3))
      (measurement (elapsedMs 4))) := by
  rw [FixTimeLimit_eq]
  rfl

theorem multiplierOf_facts (x0 x1 x2 x3 x4 : ℚ) (h0 : 0 ≤ x0) (h1 : 0 ≤ x1) (h2 : 0 ≤ x2)
    (h3 : 0 ≤ x3) (h4 : 0 ≤ x4) :
    0 ≤ multiplierOf x0 x1 x2 x3 x4 ∧
    (0 < multiplierOf x0 x1 x2 x3 x4 ↔ 0 < x0 ∨ 0 < x1 ∨ 0 < x2 ∨ 0 < x3 ∨ 0 < x4) ∧
    |multiplierOf x0 x1 x2 x3 x4 - (x0 + x1 + x2 + x3 + x4) / 5 / (3495 / 10000)| ≤
      (x0 + x1 + x2 + x3 + x4) / 5 / (3495 / 10000) / 2 ^ (49 : ℕ) := by
  unfold multiplierOf
  have hC := MY_TIME_COST_pos
  have p1 : 0 ≤ fl (0 + x0) := fl_nonneg _ (by linarith)
  have p2 : 0 ≤ fl (fl (0 + x0) + x1) := fl_nonneg _ (by linarith)
  have p3 : 0 ≤ fl (fl (fl (0 + x0) + x1) + x2) := fl_nonneg _ (by linarith)
  have p4 : 0 ≤ fl (fl (fl (fl (0 + x0) + x1) + x2) + x3) := fl_nonneg _ (by linarith)
  have p5 : 0 ≤ fl (fl (fl (fl (fl (0 + x0) + x1) + x2) + x3) + x4) := fl_nonneg _ (by linarith)
  have p6 : 0 ≤ fl (fl (fl (fl (fl (0 + x0) + x1) + x2) + x3) + x4) / 5 :=
    div_nonneg p5 (by norm_num)
  have p7 : 0 ≤ fl (fl (fl (fl (fl (fl (0 + x0) + x1) + x2) + x3) + x4) / 5) := fl_nonneg _ p6
  have p8 : 0 ≤ fl (fl (fl (fl (fl (fl (0 + x0) + x1) + x2) + x3) + x4) / 5) / MY_TIME_COST :=
    div_nonneg p7 (le_of_lt hC)
  refine ⟨fl_nonneg _ p8, ?_, ?_⟩
  · rw [fl_pos_iff _ p8, div_pos_iff_of_pos_right hC, fl_pos_iff _ p6,
      div_pos_iff_of_pos_right (by norm_num), fl_add_pos_iff _ _ p4 h4,
      fl_add_pos_iff _ _ p3 h3, fl_add_pos_iff _ _ p2 h2, fl_add_pos_iff _ _ p1 h1,
      fl_add_pos_iff _ _ (le_refl 0) h0]
    simp only [lt_irrefl, false_or, or_assoc]
  · have e1 := fl_error (0 + x0) (by linarith)
    have e2 := fl_error (fl (0 + x0) + x1) (by linarith)
    have e3 := fl_error (fl (fl (0 + x0) + x1) + x2) (by linarith)
    have e4 := fl_error (fl (fl (fl (0 + x0) + x1) + x2) + x3) (by linarith)
    have e5 := fl_error (fl (fl (fl (fl (0 + x0) + x1) + x2) + x3) + x4) (by linarith)
    have e6 := fl_error _ p6
    have e7 := fl_error _ p8
    rw [MY_TIME_COST_eq] at e7 ⊢
    generalize fl (0 + x0) = s1 at *
    generalize fl (s1 + x1) = s2 at *
    generalize fl (s2 + x2) = s3 at *
    generalize fl (s3 + x3) = s4 at *
    generalize fl (s4 + x4) = s5 at *
    generalize fl (s5 / 5) = a at *
    generalize fl (a / (6296032279063953 / 18014398509481984)) = m at *
    rw [abs_le] at e1 e2 e3 e4 e5 e6 e7 ⊢
    norm_num at e1 e2 e3 e4 e5 e6 e7 ⊢
    constructor <;> linarith

/-- With 1 millisecond measured in each of the five calls, the multiplier computed in double
precision is `6597547951970513 / 2 ^ 61`. -/
theorem multiplierOf_one_ms :
    multiplierOf (measurement 1) (measurement 1) (measurement 1) (measurement 1)
      (measurement 1) = 6597547951970513 / 2305843009213693952 := by
  have hx0 : measurement 1 = fl ((1 : ℚ) / 1000) := by
    unfold measurement
    rw [fl_natCast 1 (by norm_num)]
    norm_num
  have hx : fl ((1 : ℚ) / 1000) = 1152921504606847 / 1152921504606846976 := by
    rw [fl_eval ((1 : ℚ) / 1000) (-10) 4611686018427388 (by norm_num) (by norm_num)
      (by rw [abs_lt]; norm_num)]
    norm_num
  have h1 : fl ((0 : ℚ) + 1152921504606847 / 1152921504606846976)
      = 1152921504606847 / 1152921504606846976 := by
    rw [fl_eval ((0 : ℚ) + 1152921504606847 / 1152921504606846976) (-10) 4611686018427388 (by norm_num)
      (by norm_num) (by rw [abs_lt]; norm_num)]
    norm_num
  have h2 : fl ((1152921504606847 / 1152921504606846976 : ℚ) + 1152921504606847 / 1152921504606846976)
      = 1152921504606847 / 576460752303423488 := by
    rw [fl_eval ((1152921504606847 / 1152921504606846976 : ℚ) + 1152921504606847 / 1152921504606846976) (-9) 4611686018427388 (by norm_num)
      (by norm_num) (by rw [abs_lt]; norm_num)]
    norm_num
  have h3 : fl ((1152921504606847 / 576460752303423488 : ℚ) + 1152921504606847 / 1152921504606846976)
      = 3458764513820541 / 1152921504606846976 := by
    rw [fl_eval ((1152921504606847 / 576460752303423488 : ℚ) + 1152921504606847 / 1152921504606846976) (-9) 6917529027641082 (by norm_num)
      (by norm_num) (by rw [abs_lt]; norm_num)]
    norm_num
  have h4 : fl ((3458764513820541 / 1152921504606846976 : ℚ) + 1152921504606847 / 1152921504606846976)
      = 1152921504606847 / 288230376151711744 := by
    rw [fl_eval ((3458764513820541 / 1152921504606846976 : ℚ) + 1152921504606847 / 1152921504606846976) (-8) 4611686018427388 (by norm_num)
      (by norm_num) (by rw [abs_lt]; norm_num)]
    norm_num
  have h5 : fl ((1152921504606847 / 288230376151711744 : ℚ) + 1152921504606847 / 1152921504606846976)
      = 5764607523034235 / 1152921504606846976 := by
    rw [fl_eval ((1152921504606847 / 288230376151711744 : ℚ) + 1152921504606847 / 1152921504606846976) (-8) 5764607523034235 (by norm_num)
      (by norm_num) (by rw [abs_lt]; norm_num)]
    norm_num
  have ha : fl ((5764607523034235 / 1152921504606846976 : ℚ) / 5)
      = 1152921504606847 / 1152921504606846976 := by
    rw [fl_eval ((5764607523034235 / 1152921504606846976 : ℚ) / 5) (-10) 4611686018427388 (by norm_num)
      (by norm_num) (by rw [abs_lt]; norm_num)]
    norm_num
  have hm : fl ((1152921504606847 / 1152921504606846976 : ℚ) / (6296032279063953 / 18014398509481984))
      = 6597547951970513 / 2305843009213693952 := by
    rw [fl_eval ((1152921504606847 / 1152921504606846976 : ℚ) / (6296032279063953 / 18014398509481984)) (-9) 6597547951970513 (by norm_num)
      (by norm_num) (by rw [abs_lt]; norm_num)]
    norm_num
  rw [hx0, hx]
  unfold multiplierOf
  rw [h1, h2, h3, h4, h5, ha, MY_TIME_COST_eq, hm]

/-! ## C8 -/

/-- C8, as stated, fails. When the clock measures 0 milliseconds in each of the five calls, the
five measurements are 0 and the multiplier is 0, not strictly positive. And when it measures
1 millisecond in each call, the multiplier computed in double precision is not the mean of the
five measurements divided by 0.3495. -/
theorem multiplier_zero_or_inexact :
    (FindComputerSpeed 0 = Except.ok 0 ∧ FixTimeLimit (fun _ => 0) = Except.ok 0) ∧
    (∃ m : ℚ, FixTimeLimit (fun _ => 1) = Except.ok m ∧
      m ≠ (measurement 1 + measurement 1 + measurement 1 + measurement 1 + measurement 1) / 5 /
        (3495 / 10000)) := by
  have hz : measurement 0 = 0 := by
    unfold measurement
    simp [fl_zero]
  refine ⟨⟨?_, ?_⟩, ?_⟩
  · rw [FindComputerSpeed_eq, hz]
  · rw [FixTimeLimit_eq_multiplierOf, hz]
    unfold multiplierOf
    simp [fl_zero]
  · refine ⟨_, FixTimeLimit_eq_multiplierOf _, ?_⟩
    rw [multiplierOf_one_ms]
    have hx0 : measurement 1 = 1152921504606847 / 1152921504606846976 := by
      unfold measurement
      rw [fl_natCast 1 (by norm_num)]
      rw [show (((1 : ℕ) : ℚ) / 1000) = (1 : ℚ) / 1000 by norm_num,
        fl_eval ((1 : ℚ) / 1000) (-10) 4611686018427388 (by norm_num) (by norm_num)
          (by rw [abs_lt]; norm_num)]
      norm_num
    rw [hx0]
    norm_num

/-- C8, amended. `FixTimeLimit` raises no error and the multiplier it returns is determined by
the five measurements returned by `FindComputerSpeed`; it is never negative, it is strictly
positive exactly when at least one of the five measured times is not 0, and it differs from
the mean of the five measurements divided by 0.3495 by at most that number times `2 ^ (-49)`
(the sum, the two divisions and the constant are rounded to double precision). -/
theorem multiplier_of_measurements (elapsedMs : Nat → Nat) :
    ∃ m : ℚ, FixTimeLimit elapsedMs = Except.ok m ∧
      (∀ elapsedMs2 : Nat → Nat,
        (∀ i, i < 5 → FindComputerSpeed (elapsedMs2 i) = FindComputerSpeed (elapsedMs i)) →
          FixTimeLimit elapsedMs2 = Except.ok m) ∧
      0 ≤ m ∧
      (0 < m ↔ ∃ i, i < 5 ∧ elapsedMs i ≠ 0) ∧
      |m - (measurement (elapsedMs 0) + measurement (elapsedMs 1) + measurement (elapsedMs 2) +
          measurement (elapsedMs 3) + measurement (elapsedMs 4)) / 5 / (3495 / 10000)| ≤
        (measurement (elapsedMs 0) + measurement (elapsedMs 1) + measurement (elapsedMs 2) +
          measurement (elapsedMs 3) + measurement (elapsedMs 4)) / 5 / (3495 / 10000) /
          2 ^ (49 : ℕ) := by
  have hf := multiplierOf_facts (measurement (elapsedMs 0)) (measurement (elapsedMs 1))
    (measurement (elapsedMs 2)) (measurement (elapsedMs 3)) (measurement (elapsedMs 4))
    (measurement_nonneg _) (measurement_nonneg _) (measurement_nonneg _)
    (measurement_nonneg _) (measurement_nonneg _)
  refine ⟨_, FixTimeLimit_eq_multiplierOf elapsedMs, ?_, hf.1, ?_, hf.2.2⟩
  · intro e2 h
    have hm : ∀ i, i < 5 → measurement (e2 i) = measurement (elapsedMs i) := by
      intro i hi
      have := h i hi
      rw [FindComputerSpeed_eq, FindComputerSpeed_eq] at this
      exact Except.ok.inj this
    rw [FixTimeLimit_eq_multiplierOf, hm 0 (by norm_num), hm 1 (by norm_num),
      hm 2 (by norm_num), hm 3 (by norm_num), hm 4 (by norm_num)]
  · rw [hf.2.1]
    simp only [measurement_pos_iff]
    constructor
    · rintro (h | h | h | h | h)
      · exact ⟨0, by norm_num, h⟩
      · exact ⟨1, by norm_num, h⟩
      · exact ⟨2, by norm_num, h⟩
      · exact ⟨3, by norm_num, h⟩
      · exact ⟨4, by norm_num, h⟩
    · rintro ⟨i, hi, h⟩
      interval_cases i
      · exact Or.inl h
      · exact Or.inr (Or.inl h)
      · exact Or.inr (Or.inr (Or.inl h))
      · exact Or.inr (Or.inr (Or.inr (Or.inl h)))
      · exact Or.inr (Or.inr (Or.inr (Or.inr h)))

end OfflineJudge
